import Mathlib

/- Verification development for the HAR-File-Analyser repository.

   The definitions below are a shallow embedding of the TypeScript source:
   JSON values become an inductive `Json`, JavaScript truthiness and property
   access become `truthy` and `jsGet`, and each verified function is a direct
   translation of the corresponding function in the repository.  Numeric JSON
   values are modelled as `Int` (the verified properties do not depend on
   fractional values).  A JavaScript `undefined` produced by reading a missing
   property is modelled as `Json.null` (both are falsy and neither is ever
   distinguished from the other by the verified code paths). -/

set_option autoImplicit false

namespace HarFileAnalyser

/-- A JavaScript value as handled by the verified code.  The first six
    constructors are the possible results of `JSON.parse`.  `protoMember`
    stands for a value read from `Object.prototype` through the prototype
    chain (a built-in function such as `constructor`, or `Object.prototype`
    itself for `__proto__`): `JSON.parse` never produces one, but the level
    field of a record built by `parseJSONArray` can hold one, because the
    synonym-table lookup in `normalizeLogLevel` is an object property read
    and therefore walks the prototype chain. -/
inductive Json where
  | null : Json
  | bool (b : Bool) : Json
  | num (n : Int) : Json
  | str (s : String) : Json
  | arr (elems : List Json) : Json
  | obj (fields : List (String × Json)) : Json
  | protoMember (key : String) : Json

/-- JavaScript truthiness of a value: `null`/`undefined`, `false`, `0` and
    `""` are falsy; every array, object and `Object.prototype` member (a
    function, or `Object.prototype` itself) is truthy. -/
def truthy : Json → Bool
  | .null => false
  | .bool b => b
  | .num n => n != 0
  | .str s => s != ""
  | .arr _ => true
  | .obj _ => true
  | .protoMember _ => true

/-- First binding of a key in an object field list. -/
def getFirstField : List (String × Json) → String → Json
  | [], _ => .null
  | (k, v) :: rest, key => if k = key then v else getFirstField rest key

/-- JavaScript property read `o[k]` for the fixed literal keys the verified
    code reads (`log`, `entries`, `request`, `message`, …): `undefined` (here
    `Json.null`) unless the value is an object carrying the key.  None of
    those literal keys names an `Object.prototype` member, so the prototype
    chain contributes nothing here; the one property read with a
    caller-controlled key — the synonym-table lookup in `normalizeLogLevel` —
    is modelled separately with its prototype chain.  (Reading a property of
    `null` throws in JavaScript; call sites where that can happen handle it
    explicitly.) -/
def jsGet : Json → String → Json
  | .obj fields, key => getFirstField fields key
  | _, _ => .null

/-- Whether an object value carries the given key (distinguishes a missing key
    from a key bound to `null`). -/
def hasField : Json → String → Bool
  | .obj fields, key => fields.any (fun p => p.1 == key)
  | _, _ => false

/-- `data === null` test, used to model JavaScript property access throwing a
    `TypeError` on `null`. -/
def Json.isNull : Json → Bool
  | .null => true
  | _ => false

/-- `Array.isArray`. -/
def Json.isArr : Json → Bool
  | .arr _ => true
  | _ => false

/- ------------------------------------------------------------------
   src/components/FileUploader.tsx : validateHarFile
   ------------------------------------------------------------------ -/

/-- The `ValidationResult` interface of FileUploader.tsx. -/
structure ValidationResult where
  isValid : Bool
  error : Option String
deriving DecidableEq, Repr

def msgMissingLog : String := "Invalid HAR file: Missing \"log\" property"

def msgBadEntries : String := "Invalid HAR file: Missing or invalid \"entries\" array"

def msgNoRequests : String :=
  "HAR file contains no network requests. Please record some network activity and try again."

def msgCorrupted : String :=
  "HAR file entries are corrupted or incomplete. Please re-record the HAR file."

def msgInvalidJson : String :=
  "Invalid JSON format. Please ensure the file is a valid HAR file."

def msgFailedRead : String := "Failed to read file. Please try again."

/-- `entry.request && entry.response && entry.startedDateTime` for a non-null
    entry value (property access on non-null values never throws). -/
def entryComplete (e : Json) : Bool :=
  truthy (jsGet e "request") && truthy (jsGet e "response") &&
    truthy (jsGet e "startedDateTime")

/-- Runs `entries.some(entry => entry.request && entry.response &&
    entry.startedDateTime)` left to right.  `none` models the callback
    throwing a `TypeError` because `entry` was `null` (property access on
    `null` throws before `some` can continue). -/
def someValidRun : List Json → Option Bool
  | [] => some false
  | e :: rest =>
    if e.isNull then none
    else if entryComplete e then some true
    else someValidRun rest

/-- The body of `validateHarFile` after a successful `JSON.parse`.
    `data.log` on `data === null` throws a `TypeError`, which the surrounding
    `catch` reports as `msgFailedRead` (it is not a `SyntaxError`); the same
    happens when `entries.some` hits a `null` entry. -/
def validateParsed (data : Json) : ValidationResult :=
  if data.isNull then ⟨false, some msgFailedRead⟩
  else if !truthy (jsGet data "log") then ⟨false, some msgMissingLog⟩
  else
    match jsGet (jsGet data "log") "entries" with
    | .arr entries =>
      if entries.length = 0 then ⟨false, some msgNoRequests⟩
      else
        match someValidRun entries with
        | none => ⟨false, some msgFailedRead⟩
        | some false => ⟨false, some msgCorrupted⟩
        | some true => ⟨true, none⟩
    | _ => ⟨false, some msgBadEntries⟩

/-- `FileUploader.validateHarFile` on the outcome of `JSON.parse` of the file
    text: `none` models `JSON.parse` throwing a `SyntaxError`. -/
def validateHarFile : Option Json → ValidationResult
  | none => ⟨false, some msgInvalidJson⟩
  | some data => validateParsed data

/-- Whether the accepted file triggers
    `console.warn('HAR file missing version information')`:
    the warn is reached exactly when validation succeeds and
    `data.log.version` is falsy. -/
def warnedMissingVersion (data : Json) : Bool :=
  (validateParsed data).isValid && !truthy (jsGet (jsGet data "log") "version")

/- ------------------------------------------------------------------
   src/utils/harParser.ts : HarParser.validateHarFile
   ------------------------------------------------------------------ -/

namespace HarParser

/-- `HarParser.validateHarFile`: `data && data.log && data.log.version &&
    data.log.creator && Array.isArray(data.log.entries)` coerced to a
    boolean.  Note that it requires `log.version` to be truthy. -/
def validateHarFile (data : Json) : Bool :=
  truthy data && truthy (jsGet data "log") &&
    truthy (jsGet (jsGet data "log") "version") &&
    truthy (jsGet (jsGet data "log") "creator") &&
    (jsGet (jsGet data "log") "entries").isArr

end HarParser

/-- A complete HAR entry (request, response and startedDateTime all present)
    used as concrete test data. -/
def goodEntry : Json :=
  Json.obj [("request", Json.obj [("method", Json.str "GET")]),
            ("response", Json.obj [("status", Json.num 200)]),
            ("startedDateTime", Json.str "2024-01-01T00:00:00.000Z")]

/-- A HAR file whose `log` has `creator` and a valid entry but no `version`. -/
def harNoVersion : Json :=
  Json.obj [("log", Json.obj
    [("creator", Json.obj [("name", Json.str "WebInspector"),
                           ("version", Json.str "537.36")]),
     ("entries", Json.arr [goodEntry])])]

/- ------------------------------------------------------------------
   src/types/har.ts : the fields used by the verified analyzer functions
   ------------------------------------------------------------------ -/

/-- The `Timings` interface: `blocked`/`dns`/`connect`/`ssl` are optional,
    `send`/`wait`/`receive` are required. -/
structure Timings where
  blocked : Option Int := none
  dns : Option Int := none
  connect : Option Int := none
  send : Int := 0
  wait : Int := 0
  receive : Int := 0
  ssl : Option Int := none
deriving DecidableEq, Repr

/-- The fields of the `Response` interface read by the verified functions. -/
structure Response where
  status : Int := 0
  statusText : String := ""
deriving DecidableEq, Repr

/-- The fields of the `Entry` interface read by the verified analyzer
    functions; the remaining fields are never inspected by them. -/
structure Entry where
  pageref : Option String := none
  startedDateTime : String := ""
  time : Int := 0
  response : Response := {}
  timings : Timings := {}
deriving DecidableEq, Repr

/-- The fields of the `Page` interface read by the verified functions. -/
structure Page where
  id : String
  title : String := ""
deriving DecidableEq, Repr

/- ------------------------------------------------------------------
   src/utils/harAnalyzer.ts : HarAnalyzer
   ------------------------------------------------------------------ -/

namespace HarAnalyzer

/-- The callback of `codes.some` inside `filterByStatusCode`:
    `code === 0` matches status `0` exactly, otherwise
    `Math.floor(code / 100) === Math.floor(status / 100)`
    (`Math.floor` of an integer quotient is `Int.fdiv`). -/
def statusMatches (status : Int) (code : Int) : Bool :=
  if code = 0 then decide (status = 0)
  else decide (Int.fdiv code 100 = Int.fdiv status 100)

/-- `HarAnalyzer.filterByStatusCode`. -/
def filterByStatusCode (entries : List Entry) (codes : List Int) : List Entry :=
  entries.filter (fun entry => codes.any (fun code =>
    statusMatches entry.response.status code))

/-- JS truthiness of `entry.pageref` (`undefined` and `""` are falsy). -/
def truthyRef (e : Entry) : Bool :=
  match e.pageref with
  | none => false
  | some s => s != ""

/-- `Map.prototype.set` on an insertion-ordered association list: update in
    place if the key is present, append otherwise. -/
def mapSet {α : Type} (m : List (String × α)) (k : String) (v : α) :
    List (String × α) :=
  if m.any (fun p => decide (p.1 = k)) then
    m.map (fun p => if p.1 = k then (k, v) else p)
  else m ++ [(k, v)]

/-- `entries.filter(entry => entry.pageref === page.id)` for a page id `k`. -/
def pageBucket (entries : List Entry) (k : String) : List Entry :=
  entries.filter (fun e => decide (e.pageref = some k))

/-- `entries.filter(entry => !entry.pageref)`. -/
def orphanBucket (entries : List Entry) : List Entry :=
  entries.filter (fun e => !truthyRef e)

/-- `HarAnalyzer.groupByPage`: one bucket per page (even if empty), plus a
    `_orphan` bucket for entries with a falsy `pageref`, added only when
    non-empty. -/
def groupByPage (entries : List Entry) (pages : List Page) :
    List (String × List Entry) :=
  let grouped := pages.foldl
    (fun m page => mapSet m page.id (pageBucket entries page.id)) []
  let orphanEntries := orphanBucket entries
  if orphanEntries.length > 0 then mapSet grouped "_orphan" orphanEntries
  else grouped

/-- `x || 0` on an optional numeric field. -/
def orZero : Option Int → Int
  | none => 0
  | some v => v

/-- `x || 0` on a required numeric field (on integers this is the
    identity, since `0 || 0` is `0`). -/
def orZeroInt (v : Int) : Int := if v = 0 then 0 else v

/-- The record shape returned by `getTimingBreakdown`: all seven phase keys
    are always present. -/
structure TimingBreakdown where
  blocked : Int
  dns : Int
  connect : Int
  ssl : Int
  send : Int
  wait : Int
  receive : Int
deriving DecidableEq, Repr

/-- `HarAnalyzer.getTimingBreakdown`. -/
def getTimingBreakdown (entry : Entry) : TimingBreakdown :=
  { blocked := orZero entry.timings.blocked
    dns := orZero entry.timings.dns
    connect := orZero entry.timings.connect
    ssl := orZero entry.timings.ssl
    send := orZeroInt entry.timings.send
    wait := orZeroInt entry.timings.wait
    receive := orZeroInt entry.timings.receive }

end HarAnalyzer

/-- Whether every value present in a `Timings` optional field is
    non-negative (the data-model invariant: phases are optional
    non-negative milliseconds). -/
def optNonneg : Option Int → Bool
  | none => true
  | some v => decide (0 ≤ v)

/-- Concrete entry with a given status and a tag to keep entries distinct. -/
def entryWithStatus (s : Int) (tag : String) : Entry :=
  { startedDateTime := tag, response := { status := s } }

/-- Concrete entry referencing a page id that appears in no page list. -/
def danglingEntry : Entry := { pageref := some "p1", startedDateTime := "x" }

/-- Concrete page for the `groupByPage` witness. -/
def pageP1 : Page := { id := "p1" }

/-- Concrete entry belonging to `pageP1`. -/
def entryOnP1 : Entry := { pageref := some "p1", startedDateTime := "e1" }

/-- Concrete entry with no page reference. -/
def entryOrphan : Entry := { startedDateTime := "e2" }

/-- A HAR file whose single entry is the JSON value `null`: every entry lacks
    `request`/`response`/`startedDateTime`, yet `entries.some` throws. -/
def harNullEntry : Json :=
  Json.obj [("log", Json.obj [("entries", Json.arr [Json.null])])]

/-- Concrete data: an object with no `log` key. -/
def harNoLogFields : List (String × Json) := [("notlog", Json.num 1)]

/-- Concrete data: a HAR file with an empty `entries` array. -/
def harEmptyEntries : Json :=
  Json.obj [("log", Json.obj [("entries", Json.arr [])])]

/-- Concrete data: a non-null entry lacking all three required fields. -/
def incompleteEntry : Json := Json.obj [("comment", Json.str "truncated")]

/-- Concrete data: a HAR file whose only entry is incomplete. -/
def harIncompleteEntries : Json :=
  Json.obj [("log", Json.obj [("entries", Json.arr [incompleteEntry])])]

/- ------------------------------------------------------------------
   JavaScript string helpers for the console-log pipeline
   ------------------------------------------------------------------ -/

/-- JS `\s` restricted to the characters that occur in the verified inputs:
    space, tab, carriage return, line feed, vertical tab and form feed. -/
def isSpaceJs (c : Char) : Bool :=
  c = ' ' || c = '\t' || c = '\r' || c = '\n' || c = '\x0b' || c = '\x0c'

/-- JS `\w`: ASCII letters, digits and underscore. -/
def isWordChar (c : Char) : Bool :=
  ('a' ≤ c && c ≤ 'z') || ('A' ≤ c && c ≤ 'Z') || ('0' ≤ c && c ≤ '9') || c = '_'

/-- JS `\d`. -/
def isDigitChar (c : Char) : Bool := '0' ≤ c && c ≤ '9'

/-- JS `.` without the dotAll flag: any character except a line terminator. -/
def isDotChar (c : Char) : Bool :=
  !(c = '\n' || c = '\r' || c = Char.ofNat 0x2028 || c = Char.ofNat 0x2029)

/-- ASCII fragment of `String.prototype.toLowerCase` (every comparison made
    by the verified code is against an ASCII literal). -/
def toLowerAscii (c : Char) : Char :=
  if 'A' ≤ c && c ≤ 'Z' then Char.ofNat (c.toNat + 32) else c

/-- `String.prototype.toLowerCase`. -/
def jsToLower (s : String) : String := String.mk (s.data.map toLowerAscii)

/-- `String.prototype.trim`. -/
def jsTrim (s : String) : String :=
  String.mk (((s.data.dropWhile isSpaceJs).reverse.dropWhile isSpaceJs).reverse)

/- ------------------------------------------------------------------
   The two copies of ConsoleLogParser.normalizeLogLevel
   ------------------------------------------------------------------ -/

/-- The seven canonical log levels (the `LogLevel` union type). -/
def sevenLevels : List String :=
  ["log", "info", "warn", "error", "debug", "trace", "verbose"]

/-- The string-keyed properties every plain object literal inherits from
    `Object.prototype` (ECMAScript including the Annex B accessors shipped
    by every browser engine); each holds a truthy value — a built-in
    function, or `Object.prototype` itself for `__proto__`.  Only the
    all-lowercase `constructor` and `__proto__` can survive the
    `toLowerCase` preceding the lookup, but the lookup itself is modelled
    for every key. -/
def protoKeys : List String :=
  ["constructor", "hasOwnProperty", "isPrototypeOf", "propertyIsEnumerable",
   "toLocaleString", "toString", "valueOf", "__defineGetter__",
   "__defineSetter__", "__lookupGetter__", "__lookupSetter__", "__proto__"]

/-- The result of the property read `levelMap[n]` on a synonym-table object
    literal: an own entry, a truthy value inherited from `Object.prototype`,
    or `undefined`. -/
inductive LookupResult where
  | own (v : String) : LookupResult
  | inherited : LookupResult
  | missing : LookupResult
deriving DecidableEq, Repr

/-- The prototype-chain part of `levelMap[n]`, shared by both table
    literals (their prototypes are the same `Object.prototype`). -/
def protoLookupTail (n : String) : LookupResult :=
  if n ∈ protoKeys then .inherited else .missing

/-- The runtime value `normalizeLogLevel` returns: a level string, or — when
    the synonym lookup walked the prototype chain — the truthy inherited
    `Object.prototype` member read at `key`. -/
inductive LevelValue where
  | str (s : String) : LevelValue
  | protoMember (key : String) : LevelValue
deriving DecidableEq, Repr

/-- The runtime level value as stored in a built entry object. -/
def LevelValue.toJson : LevelValue → Json
  | .str s => Json.str s
  | .protoMember k => Json.protoMember k

namespace ConsoleLogParserUtils

/-- The property read `levelMap[n]` on the synonym-table object literal of
    `src/utils/consoleLogParser.ts`: its own rows first, then the prototype
    chain. -/
def levelMap (n : String) : LookupResult :=
  if n = "warning" then .own "warn"
  else if n = "err" then .own "error"
  else if n = "fatal" then .own "error"
  else if n = "critical" then .own "error"
  else if n = "information" then .own "info"
  else if n = "dbg" then .own "debug"
  else protoLookupTail n

/-- `ConsoleLogParser.normalizeLogLevel` of `src/utils/consoleLogParser.ts`:
    lower-case (no trim), accept a canonical level, otherwise return
    `levelMap[normalized] || 'log'` — an own table entry and an inherited
    `Object.prototype` member are both truthy and returned as-is; only
    `undefined` falls back to `log`. -/
def normalizeLogLevel (level : String) : LevelValue :=
  let normalized := jsToLower level
  if normalized ∈ sevenLevels then .str normalized
  else
    match levelMap normalized with
    | .own v => .str v
    | .inherited => .protoMember normalized
    | .missing => .str "log"

end ConsoleLogParserUtils

namespace ConsoleLogParserP2

/-- The property read `levelMap[n]` on the synonym-table object literal of
    the second copy (`src/unnamed/part_002`); its own rows additionally
    handle `panic`, `inf`, `notice`, `emerg`, `emergency`, `alert` and
    `crit` (the `verbose` and `trace` rows are shadowed by the
    canonical-level test), followed by the same prototype chain. -/
def levelMap (n : String) : LookupResult :=
  if n = "warning" then .own "warn"
  else if n = "err" then .own "error"
  else if n = "fatal" then .own "error"
  else if n = "critical" then .own "error"
  else if n = "panic" then .own "error"
  else if n = "information" then .own "info"
  else if n = "inf" then .own "info"
  else if n = "dbg" then .own "debug"
  else if n = "verbose" then .own "verbose"
  else if n = "trace" then .own "trace"
  else if n = "notice" then .own "info"
  else if n = "emerg" then .own "error"
  else if n = "emergency" then .own "error"
  else if n = "alert" then .own "error"
  else if n = "crit" then .own "error"
  else protoLookupTail n

/-- `ConsoleLogParser.normalizeLogLevel` of the `src/unnamed/part_002` copy:
    note the extra `.trim()` after `.toLowerCase()`; the lookup fallback is
    as in the utils copy (`levelMap[normalized] || 'log'`, with inherited
    `Object.prototype` members truthy and returned as-is). -/
def normalizeLogLevel (level : String) : LevelValue :=
  let normalized := jsTrim (jsToLower level)
  if normalized ∈ sevenLevels then .str normalized
  else
    match levelMap normalized with
    | .own v => .str v
    | .inherited => .protoMember normalized
    | .missing => .str "log"

end ConsoleLogParserP2

/-- The synonyms recognized only by the `part_002` copy. -/
def extraSynonyms : List String :=
  ["panic", "inf", "notice", "emerg", "emergency", "alert", "crit"]

/- ------------------------------------------------------------------
   src/types/consolelog.ts : ConsoleLogEntry / ConsoleLogFile
   ------------------------------------------------------------------ -/

/-- The `ConsoleLogEntry` interface.  The `args` field (arbitrary structured
    values) is omitted: it is never produced by the plain-text path and never
    inspected by the verified analyzer functions. -/
structure ConsoleLogEntry where
  id : String
  timestamp : String
  level : LevelValue
  message : String
  source : Option String := none
  lineNumber : Option Int := none
  columnNumber : Option Int := none
  stackTrace : Option String := none
  url : Option String := none
  category : Option String := none
deriving DecidableEq, Repr

/-- The metadata block of a `ConsoleLogFile`. -/
structure ConsoleLogMetadata where
  fileName : String
  uploadedAt : String
  totalEntries : Nat
deriving DecidableEq, Repr

/-- The `ConsoleLogFile` interface. -/
structure ConsoleLogFile where
  metadata : ConsoleLogMetadata
  entries : List ConsoleLogEntry
deriving DecidableEq, Repr

/-- Environment threaded through the parser in place of its ambient
    effects: `now` is `new Date().toISOString()`, `today` the current date
    string, `genId` the `uuidv4` generator (indexed by a counter), `dateParse`
    models `s => new Date(s)` re-serialized with `toISOString` (`none` when
    the date is invalid), and `epochToIso` models
    `new Date(ms).toISOString()`. -/
structure ParseCtx where
  now : String
  today : String
  genId : Nat → String
  dateParse : String → Option String
  epochToIso : Int → String

/- ------------------------------------------------------------------
   src/unnamed/part_002 : ConsoleLogParser.parseJSON / parseJSONArray
   ------------------------------------------------------------------ -/

namespace ConsoleLogParserP2

mutual

/-- `String()` conversion of a JSON value: `Array.prototype.toString` joins
    the elements with commas (null elements become empty strings) and plain
    objects print as `[object Object]`. -/
def jsToString : Json → String
  | .null => "null"
  | .bool b => if b then "true" else "false"
  | .num n => toString n
  | .str s => s
  | .arr xs => String.intercalate "," (jsArrStrings xs)
  | .obj _ => "[object Object]"
  | .protoMember _ => "[native code]"

/-- Stringification of array elements for `jsToString` (`join` turns null
    elements into empty strings).  The `protoMember` branch above is
    unreachable: `jsToString` is applied only to `JSON.parse` output, which
    never contains prototype members (the engine would print the source
    text of the built-in function there). -/
def jsArrStrings : List Json → List String
  | [] => []
  | .null :: rest => "" :: jsArrStrings rest
  | j :: rest => jsToString j :: jsArrStrings rest

end

/-- `log.k1 || log.k2 || ...`: the first truthy aliased field, if any. -/
def firstTruthy (log : Json) : List String → Option Json
  | [] => none
  | k :: rest =>
    let v := jsGet log k
    if truthy v then some v else firstTruthy log rest

/-- Stand-in for the engine-defined message of a thrown `TypeError` (its
    exact text is engine-specific; no verified property depends on it). -/
def msgTypeError : String := "TypeError"

/-- A key/value pair present only when the value is not `undefined` (a
    JavaScript object key bound to `undefined` is indistinguishable from an
    absent key for every operation the code performs on these records). -/
def optField (k : String) : Option Json → List (String × Json)
  | some v => [(k, v)]
  | none => []

/-- The `logs.map` callback of `parseJSONArray`, building one normalized
    entry object.  A `null` record throws a `TypeError` on the first property
    access, and a truthy non-string level value throws inside
    `normalizeLogLevel` (`toLowerCase` is not a function); both surface as
    `Except.error`. -/
def normalizeEntryJson (ctx : ParseCtx) (i : Nat) (log : Json) :
    Except String Json :=
  if log.isNull then .error msgTypeError
  else
    match (firstTruthy log ["level", "type", "severity"]).getD (Json.str "log") with
    | .str lv =>
      .ok (Json.obj (
        [("id", (firstTruthy log ["id"]).getD (Json.str (ctx.genId i))),
         ("timestamp",
           (firstTruthy log ["timestamp", "time", "timeStamp"]).getD
             (Json.str ctx.now)),
         ("level", (normalizeLogLevel lv).toJson),
         ("message",
           (firstTruthy log ["message", "msg", "text"]).getD
             (Json.str (jsToString log)))]
        ++ optField "source" (firstTruthy log ["source", "file", "filename"])
        ++ optField "lineNumber" (firstTruthy log ["lineNumber", "line", "lineno"])
        ++ optField "columnNumber"
            (firstTruthy log ["columnNumber", "column", "colno"])
        ++ optField "stackTrace" (firstTruthy log ["stackTrace", "stack", "trace"])
        ++ optField "args" (firstTruthy log ["args", "arguments", "data"])
        ++ optField "url" (firstTruthy log ["url", "uri", "location"])
        ++ optField "category" (firstTruthy log ["category", "tag"])))
    | _ => .error msgTypeError

/-- `logs.map(log => ...)` with the entry counter, stopping at the first
    thrown error. -/
def mapNormalize (ctx : ParseCtx) : Nat → List Json → Except String (List Json)
  | _, [] => .ok []
  | i, j :: rest =>
    match normalizeEntryJson ctx i j with
    | .error m => .error m
    | .ok e =>
      match mapNormalize ctx (i + 1) rest with
      | .error m => .error m
      | .ok es => .ok (e :: es)

/-- `ConsoleLogParser.parseJSONArray` (part_002 copy). -/
def parseJSONArray (ctx : ParseCtx) (logs : List Json) (fileName : String) :
    Except String Json :=
  match mapNormalize ctx 0 logs with
  | .error m => .error m
  | .ok entries =>
    .ok (Json.obj
      [("metadata", Json.obj
        [("fileName", Json.str fileName),
         ("uploadedAt", Json.str ctx.now),
         ("totalEntries", Json.num entries.length)]),
       ("entries", Json.arr entries)])

/-- `ConsoleLogParser.parseJSON` (part_002 copy) on the outcome of
    `JSON.parse content` (`Except.error` carries the engine message of a
    thrown `SyntaxError`).  Every failure inside the `try` block — including
    property access on a parsed `null` — is wrapped by the `catch` into
    `Failed to parse JSON: <message>`. -/
def parseJSON (ctx : ParseCtx) (parseResult : Except String Json)
    (fileName : String) : Except String Json :=
  match parseResult with
  | .error m => .error ("Failed to parse JSON: " ++ m)
  | .ok parsed =>
    if parsed.isNull then .error ("Failed to parse JSON: " ++ msgTypeError)
    else if truthy (jsGet parsed "metadata") && truthy (jsGet parsed "entries") then
      .ok parsed
    else
      match parsed with
      | .arr logs =>
        match parseJSONArray ctx logs fileName with
        | .ok v => .ok v
        | .error m => .error ("Failed to parse JSON: " ++ m)
      | _ =>
        match jsGet parsed "logs" with
        | .arr logs =>
          match parseJSONArray ctx logs fileName with
          | .ok v => .ok v
          | .error m => .error ("Failed to parse JSON: " ++ m)
        | _ => .error ("Failed to parse JSON: Unrecognized JSON format")

end ConsoleLogParserP2

/- ------------------------------------------------------------------
   src/unnamed/part_002 : ConsoleLogParser.parsePlainText and helpers.

   Each regular expression of the line cascade is translated into an
   explicit matcher over the character list.  Greedy/lazy behaviour is
   resolved statically wherever the follow-set makes backtracking moot
   (e.g. `\w+` before `:`), and searched in the engine's preference order
   where it is not (patterns 2 and 5).  Comments give the original regex.
   ------------------------------------------------------------------ -/

namespace ConsoleLogParserP2

/-- `(\w+)` — maximal, at least one character. -/
def spanWord (cs : List Char) : Option (List Char × List Char) :=
  let w := cs.takeWhile isWordChar
  if w.isEmpty then none else some (w, cs.drop w.length)

/-- `(\d+)` — maximal, at least one character. -/
def spanDigits (cs : List Char) : Option (List Char × List Char) :=
  let d := cs.takeWhile isDigitChar
  if d.isEmpty then none else some (d, cs.drop d.length)

/-- `\s+` — maximal, at least one character (every continuation in the
    patterns below starts with a non-space, so no backtracking arises). -/
def dropSpaces1 (cs : List Char) : Option (List Char) :=
  let sp := cs.takeWhile isSpaceJs
  if sp.isEmpty then none else some (cs.drop sp.length)

/-- `\s*(.+)$` on the rest of a line: the greedy `\s*` takes the whole
    space run unless that leaves nothing, in which case one space is given
    back to the mandatory dot-group. -/
def msgAfterOptSpaces (cs : List Char) : Option (List Char) :=
  if cs.isEmpty then none
  else
    let k := min (cs.takeWhile isSpaceJs).length (cs.length - 1)
    let b := cs.drop k
    if b.all isDotChar then some b else none

/-- `\s+(.+)$`: as above, but at least one space must be consumed. -/
def msgAfterSpaces (cs : List Char) : Option (List Char) :=
  if (cs.takeWhile isSpaceJs).isEmpty || cs.length < 2 then none
  else msgAfterOptSpaces cs

/-- The numeric value of a digit run (`parseInt`). -/
def digitsToNat (ds : List Char) : Nat :=
  ds.foldl (fun acc c => acc * 10 + (c.toNat - '0'.toNat)) 0

/-- Exactly `n` digits (`\d{n}`), returning the rest. -/
def takeExactDigits (n : Nat) (cs : List Char) : Option (List Char) :=
  let d := cs.take n
  if d.length = n && d.all isDigitChar then some (cs.drop n) else none

/-- A single expected literal character. -/
def expectChar (c : Char) : List Char → Option (List Char)
  | x :: rest => if x = c then some rest else none
  | [] => none

/-- Pattern 1: `^\[([^\]]+)\]\s*(\w+):\s*(.+)$`. -/
def matchChrome (cs : List Char) : Option (String × String × String) :=
  match cs with
  | '[' :: rest =>
    let ts := rest.takeWhile (fun c => c ≠ ']')
    if ts.isEmpty then none
    else
      match rest.drop ts.length with
      | ']' :: rest2 =>
        match spanWord (rest2.dropWhile isSpaceJs) with
        | some (w, ':' :: rest5) =>
          match msgAfterOptSpaces rest5 with
          | some msg => some (ts.asString, w.asString, msg.asString)
          | none => none
        | _ => none
      | _ => none
  | _ => none

/-- The `(https?:\/\/[^\s]+):(\d+):(\d+)$` tail of pattern 2, applied to
    the suffix after the line's last space: the final digit run is the
    column, the digit run before it (delimited by colons) the line, and the
    greedy `[^\s]+` keeps everything before them. -/
def splitUrlLineCol (tail : List Char) : Option (List Char × Nat × Nat) :=
  let r := tail.reverse
  let d2 := r.takeWhile isDigitChar
  if d2.isEmpty then none
  else
    match r.drop d2.length with
    | ':' :: r2 =>
      let d1 := r2.takeWhile isDigitChar
      if d1.isEmpty then none
      else
        match r2.drop d1.length with
        | ':' :: r3 =>
          if r3.isEmpty then none
          else some (r3.reverse, digitsToNat d1.reverse, digitsToNat d2.reverse)
        | _ => none
    | _ => none

/-- Pattern 2: `^(\w+):\s*(.+?)\s+(https?:\/\/[^\s]+):(\d+):(\d+)$`.
    The URL group admits no whitespace and must reach the end of the line,
    so the `\s+` before it ends at the line's last space; the lazy message
    is what sits between the greedy `\s*` and that space run (one space is
    given back when the region is empty). -/
def matchBrowser (cs : List Char) :
    Option (String × String × String × Nat × Nat) :=
  match spanWord cs with
  | some (w, ':' :: r) =>
    let tailLen := (r.reverse.takeWhile (fun c => !isSpaceJs c)).length
    if tailLen = r.length then none
    else
      let T := r.drop (r.length - tailLen)
      let i := r.length - tailLen - 1
      match splitUrlLineCol T with
      | none => none
      | some (urlPart, lineNo, colNo) =>
        let okUrl :=
          (urlPart.take 8 = "https://".data && decide (8 < urlPart.length)) ||
          (urlPart.take 7 = "http://".data && decide (7 < urlPart.length))
        if !okUrl then none
        else
          let runLen := ((r.take (i + 1)).reverse.takeWhile isSpaceJs).length
          let s0 := i + 1 - runLen
          let lead := (r.takeWhile isSpaceJs).length
          if s0 = 0 then
            if 1 ≤ i then
              some (w.asString, " ", urlPart.asString, lineNo, colNo)
            else none
          else
            let m := (r.take s0).drop lead
            if m.all isDotChar then
              some (w.asString, m.asString, urlPart.asString, lineNo, colNo)
            else none
  | _ => none

/-- `(?:[.,]\d{1,6})?` — greedy; a run of more than six digits can never be
    completed (every continuation excludes digits), and a bare separator is
    simply not taken. -/
def optFraction (cs : List Char) : Option (List Char) :=
  match cs with
  | c :: rest =>
    if c = '.' || c = ',' then
      let d := rest.takeWhile isDigitChar
      if d.isEmpty then some cs
      else if d.length ≤ 6 then some (rest.drop d.length)
      else none
    else some cs
  | [] => some cs

/-- `(?:Z|[+-]\d{2}:?\d{2})?` — greedy; skipping a present zone can never
    help, since every continuation requires whitespace. -/
def optZone (cs : List Char) : Option (List Char) :=
  match cs with
  | 'Z' :: rest => some rest
  | c :: rest =>
    if c = '+' || c = '-' then
      match takeExactDigits 2 rest with
      | none => none
      | some r2 =>
        match r2 with
        | ':' :: r3 => takeExactDigits 2 r3
        | _ => takeExactDigits 2 r2
    else some cs
  | [] => some cs

/-- The timestamp of pattern 3:
    `\d{4}-\d{2}-\d{2}[T\s]\d{2}:\d{2}:\d{2}(?:[.,]\d{1,6})?(?:Z|[+-]\d{2}:?\d{2})?`,
    returning the unconsumed rest. -/
def isoStampRest (cs : List Char) : Option (List Char) :=
  (takeExactDigits 4 cs).bind fun r1 =>
  (expectChar '-' r1).bind fun r2 =>
  (takeExactDigits 2 r2).bind fun r3 =>
  (expectChar '-' r3).bind fun r4 =>
  (takeExactDigits 2 r4).bind fun r5 =>
  (match r5 with
   | c :: r6 => if c = 'T' || isSpaceJs c then some r6 else none
   | [] => none).bind fun r6 =>
  (takeExactDigits 2 r6).bind fun r7 =>
  (expectChar ':' r7).bind fun r8 =>
  (takeExactDigits 2 r8).bind fun r9 =>
  (expectChar ':' r9).bind fun r10 =>
  (takeExactDigits 2 r10).bind fun r11 =>
  (optFraction r11).bind fun r12 =>
  optZone r12

/-- Pattern 3: `^(<iso timestamp>)\s+(\w+)\s+(.+)$`. -/
def matchIso (cs : List Char) : Option (String × String × String) :=
  match isoStampRest cs with
  | none => none
  | some rest =>
    let ts := cs.take (cs.length - rest.length)
    match dropSpaces1 rest with
    | none => none
    | some r1 =>
      match spanWord r1 with
      | none => none
      | some (w, r2) =>
        match msgAfterSpaces r2 with
        | none => none
        | some msg => some (ts.asString, w.asString, msg.asString)

/-- Pattern 4: `^(\d{10,13})\s+(\w+)\s+(.+)$` (a maximal digit run outside
    10..13 characters can never satisfy the mandatory whitespace after the
    counted group). -/
def matchUnix (cs : List Char) : Option (Nat × String × String) :=
  match spanDigits cs with
  | none => none
  | some (d, rest) =>
    if 10 ≤ d.length && d.length ≤ 13 then
      match dropSpaces1 rest with
      | none => none
      | some r1 =>
        match spanWord r1 with
        | none => none
        | some (w, r2) =>
          match msgAfterSpaces r2 with
          | none => none
          | some msg => some (digitsToNat d, w.asString, msg.asString)
    else none

/-- The `(.+?):(\d+):(\d+)\s*(.*)$` tail of pattern 5: the lazy source
    group grows until a colon-digits-colon-digits suffix parses; the final
    `\s*(.*)$` is the maximal space run followed by (possibly empty)
    dot-characters. -/
def sourceTail (cs : List Char) :
    Option (List Char × Nat × Nat × List Char) :=
  (List.range cs.length).findSome? (fun g0 =>
    let g := g0 + 1
    let src := cs.take g
    if !src.all isDotChar then none
    else
      match cs.drop g with
      | ':' :: r1 =>
        match spanDigits r1 with
        | none => none
        | some (d1, ':' :: r3) =>
          match spanDigits r3 with
          | none => none
          | some (d2, r4) =>
            let rest := r4.drop (r4.takeWhile isSpaceJs).length
            if rest.all isDotChar then
              some (src, digitsToNat d1, digitsToNat d2, rest)
            else none
        | some _ => none
      | _ => none)

/-- Pattern 5: `^(\w+)[:\s]+(?:(.+?)\s+at\s+)?(.+?):(\d+):(\d+)\s*(.*)$`,
    searched in the engine's preference order: longest separator run first,
    the optional `at` group preferred present, lazy groups shortest
    first. -/
def matchSource (cs : List Char) :
    Option (String × Option String × String × Nat × Nat × String) :=
  match spanWord cs with
  | none => none
  | some (w, rest) =>
    let sepMax := (rest.takeWhile (fun c => c = ':' || isSpaceJs c)).length
    if sepMax = 0 then none
    else
      (List.range sepMax).findSome? (fun d =>
        let r := rest.drop (sepMax - d)
        let withGroup :=
          (List.range r.length).findSome? (fun m0 =>
            let m := m0 + 1
            let msg2 := r.take m
            if !msg2.all isDotChar then none
            else
              match dropSpaces1 (r.drop m) with
              | none => none
              | some r3 =>
                match r3 with
                | 'a' :: 't' :: r4 =>
                  match dropSpaces1 r4 with
                  | none => none
                  | some r5 =>
                    match sourceTail r5 with
                    | none => none
                    | some (src, lineNo, colNo, trailing) =>
                      some (w.asString, some msg2.asString, src.asString,
                        lineNo, colNo, trailing.asString)
                | _ => none)
        match withGroup with
        | some res => some res
        | none =>
          match sourceTail r with
          | none => none
          | some (src, lineNo, colNo, trailing) =>
            some (w.asString, none, src.asString, lineNo, colNo,
              trailing.asString))

/-- Pattern 6: `^[\[]?(\w+)[\]]?:\s*(.+)$` (a leading `[`, when present,
    must be consumed for `\w+` to match; a `]` after the word must be
    consumed for `:` to match). -/
def matchSimple (cs : List Char) : Option (String × String) :=
  let cs1 := match cs with
    | '[' :: rest => rest
    | _ => cs
  match spanWord cs1 with
  | none => none
  | some (w, rest) =>
    let rest2 := match rest with
      | ']' :: r => r
      | _ => rest
    match rest2 with
    | ':' :: r =>
      match msgAfterOptSpaces r with
      | some msg => some (w.asString, msg.asString)
      | none => none
    | _ => none

/-- The timestamp of pattern 7: `\d{2}:\d{2}:\d{2}(?:[.,]\d{1,6})?`. -/
def timeStampRest (cs : List Char) : Option (List Char) :=
  (takeExactDigits 2 cs).bind fun r1 =>
  (expectChar ':' r1).bind fun r2 =>
  (takeExactDigits 2 r2).bind fun r3 =>
  (expectChar ':' r3).bind fun r4 =>
  (takeExactDigits 2 r4).bind fun r5 =>
  optFraction r5

/-- Pattern 7: `^(\d{2}:\d{2}:\d{2}(?:[.,]\d{1,6})?)\s+(\w+)\s+(.+)$`. -/
def matchTime (cs : List Char) : Option (String × String × String) :=
  match timeStampRest cs with
  | none => none
  | some rest =>
    let ts := cs.take (cs.length - rest.length)
    match dropSpaces1 rest with
    | none => none
    | some r1 =>
      match spanWord r1 with
      | none => none
      | some (w, r2) =>
        match msgAfterSpaces r2 with
        | none => none
        | some msg => some (ts.asString, w.asString, msg.asString)

/-- Pattern 8: `^(\w+)\s+(.+)$`. -/
def matchLevelWord (cs : List Char) : Option (String × String) :=
  match spanWord cs with
  | none => none
  | some (w, rest) =>
    match msgAfterSpaces rest with
    | none => none
    | some msg => some (w.asString, msg.asString)

/-- `ConsoleLogParser.isValidLogLevel` (part_002). -/
def isValidLogLevel (level : String) : Bool :=
  decide (jsToLower level ∈
    ["log", "info", "warn", "warning", "error", "err", "debug", "trace",
     "verbose", "fatal", "critical"])

/-- `'x' || 'y'` on strings: the left operand unless it is the falsy empty
    string. -/
def jsOrString (a b : String) : String := if a = "" then b else a

/-- `s.replace(',', '.')`: only the first occurrence is replaced. -/
def replaceFirstComma : List Char → List Char
  | [] => []
  | ',' :: rest => '.' :: rest
  | c :: rest => c :: replaceFirstComma rest

/-- The `/^\d{2}:\d{2}:\d{2}/` test of `normalizeTimestamp`. -/
def startsHHMMSS (s : String) : Bool :=
  match s.data with
  | a :: b :: ':' :: c :: d :: ':' :: e :: f :: _ =>
    isDigitChar a && isDigitChar b && isDigitChar c && isDigitChar d &&
      isDigitChar e && isDigitChar f
  | _ => false

/-- `ConsoleLogParser.normalizeTimestamp` (part_002): re-serialize through
    `new Date` when parseable, else prefix a bare time of day with the
    current date, else pass the raw string through. -/
def normalizeTimestamp (ctx : ParseCtx) (timestamp : String) : String :=
  match ctx.dateParse timestamp with
  | some iso => iso
  | none =>
    if startsHHMMSS timestamp then
      ctx.today ++ "T" ++ (replaceFirstComma timestamp.data).asString ++ "Z"
    else timestamp

/-- `ConsoleLogParser.parsePlainTextLine` (part_002): the priority-ordered
    pattern cascade; `fresh` is the uuid of the produced entry. -/
def parsePlainTextLine (ctx : ParseCtx) (fresh : String) (line : String) :
    Option ConsoleLogEntry :=
  if jsTrim line = "" then none
  else
    let cs := line.data
    match matchChrome cs with
    | some (ts, lvl, msg) =>
      some { id := fresh, timestamp := normalizeTimestamp ctx ts,
             level := normalizeLogLevel lvl, message := msg }
    | none =>
    match matchBrowser cs with
    | some (lvl, msg, url, lineNo, colNo) =>
      some { id := fresh, timestamp := ctx.now,
             level := normalizeLogLevel lvl, message := msg,
             url := some url, lineNumber := some (lineNo : Int),
             columnNumber := some (colNo : Int) }
    | none =>
    match matchIso cs with
    | some (ts, lvl, msg) =>
      some { id := fresh, timestamp := normalizeTimestamp ctx ts,
             level := normalizeLogLevel lvl, message := msg }
    | none =>
    match matchUnix cs with
    | some (v, lvl, msg) =>
      some { id := fresh,
             timestamp := if 10000000000 < v then ctx.epochToIso (v : Int)
               else ctx.epochToIso ((v : Int) * 1000),
             level := normalizeLogLevel lvl, message := msg }
    | none =>
    match matchSource cs with
    | some (lvl, msgBefore, src, lineNo, colNo, trailing) =>
      if isValidLogLevel lvl then
        some { id := fresh, timestamp := ctx.now,
               level := normalizeLogLevel lvl,
               message := jsOrString (msgBefore.getD "") trailing,
               source := some src, lineNumber := some (lineNo : Int),
               columnNumber := some (colNo : Int) }
      else
        fallthrough6 ctx fresh line cs
    | none => fallthrough6 ctx fresh line cs
where
  /-- Patterns 6-8 and the final fallback. -/
  fallthrough6 (ctx : ParseCtx) (fresh : String) (line : String)
      (cs : List Char) : Option ConsoleLogEntry :=
    match matchSimple cs with
    | some (lvl, msg) =>
      if isValidLogLevel lvl then
        some { id := fresh, timestamp := ctx.now,
               level := normalizeLogLevel lvl, message := msg }
      else fallthrough7 ctx fresh line cs
    | none => fallthrough7 ctx fresh line cs
  /-- Patterns 7-8 and the final fallback. -/
  fallthrough7 (ctx : ParseCtx) (fresh : String) (line : String)
      (cs : List Char) : Option ConsoleLogEntry :=
    match matchTime cs with
    | some (ts, lvl, msg) =>
      if isValidLogLevel lvl then
        some { id := fresh,
               timestamp := ctx.today ++ "T" ++
                 (replaceFirstComma ts.data).asString ++ "Z",
               level := normalizeLogLevel lvl, message := msg }
      else fallthrough8 ctx fresh line cs
    | none => fallthrough8 ctx fresh line cs
  /-- Pattern 8 and the final fallback. -/
  fallthrough8 (ctx : ParseCtx) (fresh : String) (line : String)
      (cs : List Char) : Option ConsoleLogEntry :=
    match matchLevelWord cs with
    | some (lvl, msg) =>
      if isValidLogLevel lvl then
        some { id := fresh, timestamp := ctx.now,
               level := normalizeLogLevel lvl, message := msg }
      else
        some { id := fresh, timestamp := ctx.now, level := .str "log",
               message := line }
    | none =>
      some { id := fresh, timestamp := ctx.now, level := .str "log",
             message := line }

/-- `String.prototype.startsWith` over character lists (the first argument
    is the string, the second the candidate head). -/
def startsWithChars : List Char → List Char → Bool
  | _, [] => true
  | [], _ :: _ => false
  | c :: cs, p :: ps => c = p && startsWithChars cs ps

/-- `:\d+:\d+` anchored at the head of the list. -/
def colonNumColonNumAt : List Char → Bool
  | ':' :: r1 =>
    let d1 := r1.takeWhile isDigitChar
    if d1.isEmpty then false
    else
      match r1.drop d1.length with
      | ':' :: r2 => !(r2.takeWhile isDigitChar).isEmpty
      | _ => false
  | _ => false

/-- `/^\s+.*:\d+:\d+/.test(line)`: at least one leading space, then
    dot-characters, then the colon-number-colon-number shape somewhere. -/
def fileLineColTest (cs : List Char) : Bool :=
  match cs with
  | c :: _ =>
    isSpaceJs c &&
      (List.range cs.length).any (fun i =>
        colonNumColonNumAt (cs.drop i) &&
          ((cs.take i).dropWhile isSpaceJs).all isDotChar)
  | [] => false

/-- `/^\s+at\s+/.test(line)`. -/
def atLineTest (cs : List Char) : Bool :=
  match cs with
  | c :: _ =>
    isSpaceJs c &&
      (match cs.dropWhile isSpaceJs with
       | 'a' :: 't' :: d :: _ => isSpaceJs d
       | _ => false)
  | [] => false

/-- `/^\s+\w+@/.test(line)` (the Firefox stack frame shape). -/
def firefoxTest (cs : List Char) : Bool :=
  match cs with
  | c :: _ =>
    isSpaceJs c &&
      (match spanWord (cs.dropWhile isSpaceJs) with
       | some (_, '@' :: _) => true
       | _ => false)
  | [] => false

/-- `ConsoleLogParser.isStackTraceLine` (part_002). -/
def isStackTraceLine (line : String) : Bool :=
  let trimmed := (jsTrim line).data
  startsWithChars trimmed "at ".data || startsWithChars trimmed "    at ".data ||
    atLineTest line.data || firefoxTest line.data ||
    fileLineColTest line.data

/-- The mutable state of the `parsePlainText` loop: the emitted entries,
    the pending entry, the pending stack-trace buffer, and the number of
    uuids consumed so far. -/
structure PTState where
  entries : List ConsoleLogEntry
  current : Option ConsoleLogEntry
  stackLines : List String
  counter : Nat
deriving DecidableEq, Repr

/-- One iteration of the `parsePlainText` loop on a raw line, in source
    order: stack-continuation accumulation first, then flushing a pending
    entry whose stack buffer is non-empty, then the line cascade, then
    message continuation. -/
def ptStep (ctx : ParseCtx) (st : PTState) (line : String) : PTState :=
  if isStackTraceLine line && st.current.isSome then
    { st with stackLines := st.stackLines ++ [jsTrim line] }
  else
    let st1 : PTState :=
      match st.current with
      | some c =>
        if st.stackLines ≠ [] then
          { entries := st.entries ++
              [{ c with
                  stackTrace := some (String.intercalate "\n" st.stackLines) }],
            current := none, stackLines := [], counter := st.counter }
        else st
      | none => st
    match parsePlainTextLine ctx (ctx.genId st1.counter) (jsTrim line) with
    | some entry =>
      (match st1.current with
       | some c =>
         { entries := st1.entries ++
             [if st1.stackLines ≠ []
              then { c with
                      stackTrace := some (String.intercalate "\n" st1.stackLines) }
              else c],
           current := some entry,
           stackLines := if st1.stackLines ≠ [] then [] else st1.stackLines,
           counter := st1.counter + 1 }
       | none =>
         { st1 with current := some entry, counter := st1.counter + 1 })
    | none =>
      match st1.current with
      | some c =>
        if jsTrim line ≠ "" then
          { st1 with
             current := some { c with message := c.message ++ "\n" ++ jsTrim line } }
        else st1
      | none => st1

/-- `content.split('\n')`. -/
def splitLinesAux : List Char → List Char → List String
  | [], acc => [acc.reverse.asString]
  | '\n' :: rest, acc => acc.reverse.asString :: splitLinesAux rest []
  | c :: rest, acc => splitLinesAux rest (c :: acc)

/-- `content.split('\n')`. -/
def splitLines (s : String) : List String := splitLinesAux s.data []

/-- `ConsoleLogParser.parsePlainText` (part_002): one forward pass with
    multiline reassembly; the last pending entry is flushed at end of
    input. -/
def parsePlainText (ctx : ParseCtx) (content : String) (fileName : String) :
    ConsoleLogFile :=
  let final := (splitLines content).foldl (ptStep ctx) ⟨[], none, [], 0⟩
  let entries :=
    match final.current with
    | some c =>
      final.entries ++
        [if final.stackLines ≠ []
         then { c with
                 stackTrace := some (String.intercalate "\n" final.stackLines) }
         else c]
    | none => final.entries
  { metadata := { fileName := fileName, uploadedAt := ctx.now,
                  totalEntries := entries.length },
    entries := entries }

end ConsoleLogParserP2

/- ------------------------------------------------------------------
   src/utils/consoleLogAnalyzer.ts : ConsoleLogAnalyzer.filterByTimeRange
   ------------------------------------------------------------------ -/

namespace ConsoleLogAnalyzer

/-- `ConsoleLogAnalyzer.filterByTimeRange`.  `dateValue` abstracts
    `s => new Date(s).getTime()` (`none` models `NaN`): every comparison
    against `NaN` is false, and a `null` or empty-string bound is falsy, so
    either imposes no constraint. -/
def filterByTimeRange (dateValue : String → Option Int)
    (entries : List ConsoleLogEntry) (start stop : Option String) :
    List ConsoleLogEntry :=
  entries.filter (fun entry =>
    match dateValue entry.timestamp with
    | none => true
    | some t =>
      let startViolated :=
        match start with
        | none => false
        | some s => (s != "") && (match dateValue s with
            | some b => decide (t < b)
            | none => false)
      let stopViolated :=
        match stop with
        | none => false
        | some s => (s != "") && (match dateValue s with
            | some b => decide (b < t)
            | none => false)
      !startViolated && !stopViolated)

end ConsoleLogAnalyzer

/-- Concrete parser environment for witnesses. -/
def ctxSample : ParseCtx :=
  { now := "NOW", today := "2024-01-16", genId := fun n => toString n,
    dateParse := fun _ => none, epochToIso := fun _ => "" }

/-- A JSON value carrying both a `metadata` key and an `entries` key where
    the `metadata` value is the falsy `null`. -/
def shapedBad : Json :=
  Json.obj [("metadata", Json.null), ("entries", Json.arr [])]

/-- A JSON value with truthy `metadata` and `entries` fields. -/
def shapedGood : Json :=
  Json.obj [("metadata", Json.obj [("fileName", Json.str "x")]),
            ("entries", Json.arr [])]

/-- Concrete loop state with a pending entry, for the reassembly witness. -/
def ptStateSample : ConsoleLogParserP2.PTState :=
  { entries := [],
    current := some { id := "id0", timestamp := "NOW",
                      level := .str "error", message := "boom" },
    stackLines := [], counter := 1 }

/-- Concrete date oracle for the time-range witness. -/
def sampleDateValue (s : String) : Option Int :=
  if s = "t5" then some 5 else if s = "t9" then some 9 else none

/-- Concrete console log entry for the time-range witness. -/
def sampleLogEntry : ConsoleLogEntry :=
  { id := "id0", timestamp := "t5", level := .str "log", message := "m" }

end HarFileAnalyser

namespace HarFileAnalyser

/- ------------------------------------------------------------------
   Helper lemmas
   ------------------------------------------------------------------ -/

theorem getFirstField_of_not_hasField (fs : List (String × Json)) (k : String)
    (h : hasField (Json.obj fs) k = false) : getFirstField fs k = Json.null := by
  induction fs with
  | nil => rfl
  | cons p rest ih =>
    simp only [hasField, List.any_cons, Bool.or_eq_false_iff, beq_eq_false_iff_ne] at h
    simp only [getFirstField, if_neg h.1]
    exact ih (by simp only [hasField]; exact h.2)

theorem someValidRun_of_incomplete (es : List Json)
    (hnn : ∀ e ∈ es, e.isNull = false)
    (hin : ∀ e ∈ es, entryComplete e = false) :
    someValidRun es = some false := by
  induction es with
  | nil => rfl
  | cons e rest ih =>
    simp only [someValidRun, hnn e (List.mem_cons_self e rest),
      hin e (List.mem_cons_self e rest), Bool.false_eq_true, if_false]
    exact ih (fun x hx => hnn x (List.mem_cons_of_mem e hx))
      (fun x hx => hin x (List.mem_cons_of_mem e hx))

/-- Membership in `mapSet m k v`: either the freshly written binding, or an
    old binding with a different key. -/
theorem mem_mapSet {α : Type} (m : List (String × α)) (k : String) (v : α)
    (k' : String) (v' : α) :
    (k', v') ∈ HarAnalyzer.mapSet m k v ↔
      (k' = k ∧ v' = v) ∨ ((k', v') ∈ m ∧ k' ≠ k) := by
  unfold HarAnalyzer.mapSet
  split
  case isTrue hany =>
    rw [List.any_eq_true] at hany
    obtain ⟨p, hp, hpk⟩ := hany
    rw [decide_eq_true_eq] at hpk
    rw [List.mem_map]
    constructor
    · rintro ⟨q, hq, hfq⟩
      by_cases hqk : q.1 = k
      · rw [if_pos hqk] at hfq
        injection hfq with hk hv
        exact Or.inl ⟨hk.symm, hv.symm⟩
      · rw [if_neg hqk] at hfq
        subst hfq
        exact Or.inr ⟨hq, hqk⟩
    · rintro (⟨hk, hv⟩ | ⟨hmem, hne⟩)
      · exact ⟨p, hp, by rw [if_pos hpk, hk, hv]⟩
      · exact ⟨(k', v'), hmem, by rw [if_neg hne]⟩
  case isFalse hany =>
    rw [List.mem_append, List.mem_singleton, Prod.mk.injEq]
    constructor
    · rintro (hmem | ⟨hk, hv⟩)
      · refine Or.inr ⟨hmem, fun hk => ?_⟩
        exact hany (List.any_eq_true.mpr ⟨(k', v'), hmem, by simp [hk]⟩)
      · exact Or.inl ⟨hk, hv⟩
    · rintro (⟨hk, hv⟩ | ⟨hmem, _⟩)
      · exact Or.inr ⟨hk, hv⟩
      · exact Or.inl hmem

/-- Characterization of the page fold inside `groupByPage`. -/
theorem groupFold_mem (entries : List Entry) (pages : List Page)
    (m : List (String × List Entry)) (P : String → Prop)
    (hm : ∀ k l, (k, l) ∈ m ↔ P k ∧ l = HarAnalyzer.pageBucket entries k)
    (k : String) (l : List Entry) :
    (k, l) ∈ pages.foldl
        (fun m page => HarAnalyzer.mapSet m page.id
          (HarAnalyzer.pageBucket entries page.id)) m ↔
      (P k ∨ ∃ p ∈ pages, p.id = k) ∧ l = HarAnalyzer.pageBucket entries k := by
  induction pages generalizing m P with
  | nil => simpa using hm k l
  | cons page rest ih =>
    rw [List.foldl_cons]
    rw [ih _ (fun k => P k ∨ page.id = k) ?hinv]
    · constructor
      · rintro ⟨hk, hl⟩
        refine ⟨?_, hl⟩
        rcases hk with (hP | hid) | ⟨p, hp, hpk⟩
        · exact Or.inl hP
        · exact Or.inr ⟨page, List.mem_cons_self _ _, hid⟩
        · exact Or.inr ⟨p, List.mem_cons_of_mem _ hp, hpk⟩
      · rintro ⟨hk, hl⟩
        refine ⟨?_, hl⟩
        rcases hk with hP | ⟨p, hp, hpk⟩
        · exact Or.inl (Or.inl hP)
        · rcases List.mem_cons.mp hp with hph | hpt
          · exact Or.inl (Or.inr (hph ▸ hpk))
          · exact Or.inr ⟨p, hpt, hpk⟩
    case hinv =>
      intro k' l'
      rw [mem_mapSet, hm k' l']
      constructor
      · rintro (⟨hk, hv⟩ | ⟨⟨hP, hl⟩, hne⟩)
        · exact ⟨Or.inr hk.symm, by rw [hk, hv]⟩
        · exact ⟨Or.inl hP, hl⟩
      · rintro ⟨hP | hid, hl⟩
        · by_cases hk : k' = page.id
          · exact Or.inl ⟨hk, by rw [hl, hk]⟩
          · exact Or.inr ⟨⟨hP, hl⟩, hk⟩
        · exact Or.inl ⟨hid.symm, by rw [hl, hid]⟩

/-- Characterization of `groupByPage` membership, assuming no page is named
    `_orphan`. -/
theorem groupByPage_mem (entries : List Entry) (pages : List Page)
    (h1 : ∀ p ∈ pages, p.id ≠ "_orphan") (k : String) (l : List Entry) :
    (k, l) ∈ HarAnalyzer.groupByPage entries pages ↔
      ((∃ p ∈ pages, p.id = k) ∧ l = HarAnalyzer.pageBucket entries k) ∨
      (k = "_orphan" ∧ l = HarAnalyzer.orphanBucket entries ∧
        HarAnalyzer.orphanBucket entries ≠ []) := by
  have hbase := groupFold_mem entries pages [] (fun _ => False) (by simp) k l
  simp only [HarAnalyzer.groupByPage]
  split
  case isTrue hlen =>
    have hne : HarAnalyzer.orphanBucket entries ≠ [] := by
      intro h
      rw [h] at hlen
      exact absurd hlen (by simp)
    rw [mem_mapSet, hbase]
    constructor
    · rintro (⟨hk, hv⟩ | ⟨⟨hex, hl⟩, hneK⟩)
      · exact Or.inr ⟨hk, hv, hne⟩
      · exact Or.inl ⟨(false_or _ |>.mp hex), hl⟩
    · rintro (⟨hex, hl⟩ | ⟨hk, hl, _⟩)
      · refine Or.inr ⟨⟨Or.inr hex, hl⟩, ?_⟩
        obtain ⟨p, hp, hpk⟩ := hex
        exact hpk ▸ h1 p hp
      · exact Or.inl ⟨hk, hl⟩
  case isFalse hlen =>
    have hnil : HarAnalyzer.orphanBucket entries = [] := by
      cases h : HarAnalyzer.orphanBucket entries with
      | nil => rfl
      | cons a t => exact absurd (by rw [h]; simp) hlen
    rw [hbase]
    constructor
    · rintro ⟨hex, hl⟩
      exact Or.inl ⟨(false_or _ |>.mp hex), hl⟩
    · rintro (⟨hex, hl⟩ | ⟨_, _, hne⟩)
      · exact ⟨Or.inr hex, hl⟩
      · exact absurd hnil hne

/- ------------------------------------------------------------------
   Claim theorems (HAR validation)
   ------------------------------------------------------------------ -/

/-- C1: a HAR file with a well-formed non-empty `entries` array but no
    `log.version` passes the FileUploader validation with only a warning —
    but the repository also ships `HarParser.validateHarFile` (used by
    `loadHarFile` via `HarParser.parseFile`), which returns `false` for the
    very same data because it requires `log.version` to be truthy, so the
    upload pipeline rejects the file with `Invalid HAR file format`.  The two
    validators contradict each other; this theorem evaluates both on the
    failing input. -/
theorem c1_missing_version_divergence :
    validateHarFile (some harNoVersion) = ⟨true, none⟩ ∧
    warnedMissingVersion harNoVersion = true ∧
    HarParser.validateHarFile harNoVersion = false := by
  refine ⟨rfl, rfl, rfl⟩

/-- C4 counterexample: a HAR file whose non-empty `entries` array consists of
    the JSON value `null` has no entry with `request`/`response`/
    `startedDateTime`, yet validation reports the generic read-failure
    message, not the "corrupted entries" message: the `some` callback throws
    a `TypeError` on `null.request`, which the `catch` does not treat as a
    `SyntaxError`. -/
theorem c4_null_entry_counterexample :
    (∀ e ∈ [Json.null], entryComplete e = false) ∧
    validateParsed harNullEntry = ⟨false, some msgFailedRead⟩ ∧
    msgFailedRead ≠ msgCorrupted := by
  refine ⟨?_, rfl, by decide⟩
  intro e he
  rw [List.mem_singleton] at he
  subst he
  rfl

/-- C4 (amended): HAR validation distinguishes its rejection conditions —
    malformed JSON, a missing `log` key, an empty `entries` array, and a
    non-empty `entries` array in which every entry is non-null and no entry
    has all of `request`, `response` and `startedDateTime` each produce their
    own message, and the four messages are pairwise distinct.  (The non-null
    restriction is forced by `c4_null_entry_counterexample`.) -/
theorem c4_rejection_messages (fs : List (String × Json)) (d3 d4 : Json)
    (es : List Json)
    (h2 : hasField (Json.obj fs) "log" = false)
    (h3a : truthy (jsGet d3 "log") = true)
    (h3b : jsGet (jsGet d3 "log") "entries" = Json.arr [])
    (h4a : truthy (jsGet d4 "log") = true)
    (h4b : jsGet (jsGet d4 "log") "entries" = Json.arr es)
    (h4c : es ≠ [])
    (h4d : ∀ e ∈ es, e.isNull = false)
    (h4e : ∀ e ∈ es, entryComplete e = false) :
    validateHarFile none = ⟨false, some msgInvalidJson⟩ ∧
    validateParsed (Json.obj fs) = ⟨false, some msgMissingLog⟩ ∧
    validateParsed d3 = ⟨false, some msgNoRequests⟩ ∧
    validateParsed d4 = ⟨false, some msgCorrupted⟩ ∧
    msgInvalidJson ≠ msgMissingLog ∧ msgInvalidJson ≠ msgNoRequests ∧
    msgInvalidJson ≠ msgCorrupted ∧ msgMissingLog ≠ msgNoRequests ∧
    msgMissingLog ≠ msgCorrupted ∧ msgNoRequests ≠ msgCorrupted := by
  have hd3 : d3.isNull = false := by
    cases d3 <;> first | rfl | (exfalso; exact absurd h3a (by simp [jsGet, truthy]))
  have hd4 : d4.isNull = false := by
    cases d4 <;> first | rfl | (exfalso; exact absurd h4a (by simp [jsGet, truthy]))
  refine ⟨rfl, ?_, ?_, ?_, by decide, by decide, by decide, by decide, by decide,
    by decide⟩
  · have hlog : jsGet (Json.obj fs) "log" = Json.null :=
      getFirstField_of_not_hasField fs "log" h2
    simp [validateParsed, Json.isNull, hlog, truthy]
  · simp [validateParsed, hd3, h3a, h3b]
  · have hrun := someValidRun_of_incomplete es h4d h4e
    simp [validateParsed, hd4, h4a, h4b, hrun, h4c]

/-- C4 witness: the amended theorem applied to concrete inputs for each
    rejection condition. -/
theorem c4_rejection_messages_witness :
    validateParsed (Json.obj harNoLogFields) = ⟨false, some msgMissingLog⟩ ∧
    validateParsed harEmptyEntries = ⟨false, some msgNoRequests⟩ ∧
    validateParsed harIncompleteEntries = ⟨false, some msgCorrupted⟩ := by
  have h := c4_rejection_messages harNoLogFields harEmptyEntries
    harIncompleteEntries [incompleteEntry] rfl rfl rfl rfl rfl
    (List.cons_ne_nil _ _)
    (by intro e he; rw [List.mem_singleton] at he; subst he; rfl)
    (by intro e he; rw [List.mem_singleton] at he; subst he; rfl)
  exact ⟨h.2.1, h.2.2.1, h.2.2.2.1⟩

/-- C2 counterexample: an entry whose `pageref` names a page id absent from
    the page list lands in no bucket at all — it is neither matched by any
    page bucket nor orphaned (its `pageref` is truthy) — so the union of the
    buckets is not the original collection. -/
theorem c2_dangling_pageref_counterexample :
    (∀ (k : String) (l : List Entry),
      (k, l) ∈ HarAnalyzer.groupByPage [danglingEntry] [] → danglingEntry ∉ l) ∧
    danglingEntry ∈ [danglingEntry] := by
  refine ⟨?_, List.mem_singleton_self _⟩
  intro k l h
  rw [show HarAnalyzer.groupByPage [danglingEntry] [] = [] from rfl] at h
  exact absurd h (List.not_mem_nil _)

/-- C2 (amended): when every page id is non-empty and distinct from the
    reserved `_orphan` key, and every entry with a truthy page reference
    points at some listed page, the buckets returned by `groupByPage` are
    pairwise disjoint and their union is exactly the original entry
    collection; entries with a falsy page reference land in the `_orphan`
    bucket, which is present only when non-empty.  (The extra hypotheses are
    forced by `c2_dangling_pageref_counterexample` and by the truthiness test
    `!entry.pageref` in the source.) -/
theorem c2_group_by_page_partition (entries : List Entry) (pages : List Page)
    (h1 : ∀ p ∈ pages, p.id ≠ "" ∧ p.id ≠ "_orphan")
    (h2 : ∀ e ∈ entries, HarAnalyzer.truthyRef e = true →
      ∃ p ∈ pages, some p.id = e.pageref) :
    (∀ (k1 : String) (l1 : List Entry) (k2 : String) (l2 : List Entry),
      (k1, l1) ∈ HarAnalyzer.groupByPage entries pages →
      (k2, l2) ∈ HarAnalyzer.groupByPage entries pages → k1 ≠ k2 →
      ∀ e ∈ l1, e ∉ l2) ∧
    (∀ e : Entry,
      (∃ k l, (k, l) ∈ HarAnalyzer.groupByPage entries pages ∧ e ∈ l) ↔
        e ∈ entries) ∧
    (∀ e ∈ entries, HarAnalyzer.truthyRef e = false →
      ∃ l, ("_orphan", l) ∈ HarAnalyzer.groupByPage entries pages ∧ e ∈ l) ∧
    (∀ l : List Entry,
      ("_orphan", l) ∈ HarAnalyzer.groupByPage entries pages → l ≠ []) := by
  have h1o : ∀ p ∈ pages, p.id ≠ "_orphan" := fun p hp => (h1 p hp).2
  have hchar := groupByPage_mem entries pages h1o
  have hpageMem : ∀ (e : Entry) (k : String),
      e ∈ HarAnalyzer.pageBucket entries k ↔
        e ∈ entries ∧ e.pageref = some k := by
    intro e k
    rw [HarAnalyzer.pageBucket, List.mem_filter, decide_eq_true_eq]
  have horphMem : ∀ e : Entry,
      e ∈ HarAnalyzer.orphanBucket entries ↔
        e ∈ entries ∧ HarAnalyzer.truthyRef e = false := by
    intro e
    rw [HarAnalyzer.orphanBucket, List.mem_filter, Bool.not_eq_eq_eq_not,
      Bool.not_true]
  have htruthy : ∀ (e : Entry) (k : String), e.pageref = some k → k ≠ "" →
      HarAnalyzer.truthyRef e = true := by
    intro e k hpr hne
    rw [HarAnalyzer.truthyRef, hpr]
    simpa using hne
  refine ⟨?_, ?_, ?_, ?_⟩
  · intro k1 l1 k2 l2 hm1 hm2 hne e he1 he2
    rcases (hchar k1 l1).mp hm1 with ⟨⟨p1, hp1, hpk1⟩, hl1⟩ | ⟨hk1, hl1, _⟩ <;>
      rcases (hchar k2 l2).mp hm2 with ⟨⟨p2, hp2, hpk2⟩, hl2⟩ | ⟨hk2, hl2, _⟩
    · subst hl1; subst hl2
      have e1 := ((hpageMem e k1).mp he1).2
      have e2 := ((hpageMem e k2).mp he2).2
      exact hne (Option.some.inj (e1 ▸ e2 ▸ rfl))
    · subst hl1; subst hl2
      have e1 := ((hpageMem e k1).mp he1).2
      have e2 := ((horphMem e).mp he2).2
      rw [htruthy e k1 e1 (hpk1 ▸ (h1 p1 hp1).1)] at e2
      simp at e2
    · subst hl1; subst hl2
      have e1 := ((horphMem e).mp he1).2
      have e2 := ((hpageMem e k2).mp he2).2
      rw [htruthy e k2 e2 (hpk2 ▸ (h1 p2 hp2).1)] at e1
      simp at e1
    · exact hne (hk1.trans hk2.symm)
  · intro e
    constructor
    · rintro ⟨k, l, hm, he⟩
      rcases (hchar k l).mp hm with ⟨_, hl⟩ | ⟨_, hl, _⟩
      · exact ((hpageMem e k).mp (hl ▸ he)).1
      · exact ((horphMem e).mp (hl ▸ he)).1
    · intro he
      by_cases ht : HarAnalyzer.truthyRef e = true
      · obtain ⟨p, hp, hpk⟩ := h2 e he ht
        refine ⟨p.id, HarAnalyzer.pageBucket entries p.id,
          (hchar _ _).mpr (Or.inl ⟨⟨p, hp, rfl⟩, rfl⟩), ?_⟩
        exact (hpageMem e p.id).mpr ⟨he, hpk.symm⟩
      · have horph : e ∈ HarAnalyzer.orphanBucket entries :=
          (horphMem e).mpr ⟨he, by simpa using ht⟩
        refine ⟨"_orphan", HarAnalyzer.orphanBucket entries,
          (hchar _ _).mpr (Or.inr ⟨rfl, rfl, List.ne_nil_of_mem horph⟩), horph⟩
  · intro e he ht
    have horph : e ∈ HarAnalyzer.orphanBucket entries :=
      (horphMem e).mpr ⟨he, ht⟩
    exact ⟨HarAnalyzer.orphanBucket entries,
      (hchar _ _).mpr (Or.inr ⟨rfl, rfl, List.ne_nil_of_mem horph⟩), horph⟩
  · intro l hm
    rcases (hchar _ _).mp hm with ⟨⟨p, hp, hpk⟩, _⟩ | ⟨_, hl, hne⟩
    · exact absurd hpk (h1o p hp)
    · exact hl ▸ hne

/-- C2 witness: the amended theorem applied to a one-page list with one
    matching entry and one orphan entry. -/
theorem c2_group_by_page_partition_witness :
    ∃ l, ("_orphan", l) ∈ HarAnalyzer.groupByPage [entryOnP1, entryOrphan] [pageP1] ∧
      entryOrphan ∈ l := by
  exact (c2_group_by_page_partition [entryOnP1, entryOrphan] [pageP1]
    (by decide) (by decide)).2.2.1 entryOrphan (by decide) (by decide)

/-- C3: for every HAR entry whose timing phases satisfy the data-model
    invariant (present values are non-negative), `getTimingBreakdown` returns
    all seven phases non-negative, and every absent optional phase is
    normalized to `0`.  All seven keys are present by the shape of
    `TimingBreakdown`. -/
theorem c3_timing_breakdown_nonneg (e : Entry)
    (hb : optNonneg e.timings.blocked = true)
    (hd : optNonneg e.timings.dns = true)
    (hc : optNonneg e.timings.connect = true)
    (hl : optNonneg e.timings.ssl = true)
    (hs : 0 ≤ e.timings.send) (hw : 0 ≤ e.timings.wait)
    (hr : 0 ≤ e.timings.receive) :
    (0 ≤ (HarAnalyzer.getTimingBreakdown e).blocked ∧
     0 ≤ (HarAnalyzer.getTimingBreakdown e).dns ∧
     0 ≤ (HarAnalyzer.getTimingBreakdown e).connect ∧
     0 ≤ (HarAnalyzer.getTimingBreakdown e).ssl ∧
     0 ≤ (HarAnalyzer.getTimingBreakdown e).send ∧
     0 ≤ (HarAnalyzer.getTimingBreakdown e).wait ∧
     0 ≤ (HarAnalyzer.getTimingBreakdown e).receive) ∧
    (e.timings.blocked = none → (HarAnalyzer.getTimingBreakdown e).blocked = 0) ∧
    (e.timings.dns = none → (HarAnalyzer.getTimingBreakdown e).dns = 0) ∧
    (e.timings.connect = none → (HarAnalyzer.getTimingBreakdown e).connect = 0) ∧
    (e.timings.ssl = none → (HarAnalyzer.getTimingBreakdown e).ssl = 0) := by
  have horz : ∀ o : Option Int, optNonneg o = true → 0 ≤ HarAnalyzer.orZero o := by
    intro o h
    cases o with
    | none => simp [HarAnalyzer.orZero]
    | some v => simpa [HarAnalyzer.orZero, optNonneg] using h
  have hoz : ∀ v : Int, HarAnalyzer.orZeroInt v = v := by
    intro v
    unfold HarAnalyzer.orZeroInt
    split <;> omega
  refine ⟨⟨horz _ hb, horz _ hd, horz _ hc, horz _ hl, ?_, ?_, ?_⟩, ?_, ?_, ?_, ?_⟩ <;>
    simp [HarAnalyzer.getTimingBreakdown, hoz, hs, hw, hr]
  all_goals intro h
  all_goals simp [h, HarAnalyzer.orZero]

/-- C3 witness: the theorem applied to a concrete entry with `dns` and `ssl`
    absent and the other phases non-negative. -/
theorem c3_timing_breakdown_nonneg_witness :
    0 ≤ (HarAnalyzer.getTimingBreakdown
          { timings := { blocked := some 5, send := 1, wait := 2, receive := 3 } }).blocked ∧
    (HarAnalyzer.getTimingBreakdown
          { timings := { blocked := some 5, send := 1, wait := 2, receive := 3 } }).ssl = 0 := by
  have h := c3_timing_breakdown_nonneg
    { timings := { blocked := some 5, send := 1, wait := 2, receive := 3 } }
    (by decide) (by decide) (by decide) (by decide) (by decide) (by decide)
    (by decide)
  exact ⟨h.1.1, h.2.2.2.2 rfl⟩

/-- C5: `filterByStatusCode` keeps exactly the entries whose status falls in
    at least one requested class under floor-division-by-100 bucketing, with
    class `0` matching only status exactly `0`; the classes
    `[200, 400]` applied to statuses `[200, 301, 404, 0]` keep exactly the
    `200` and `404` entries; and an empty requested set keeps nothing. -/
theorem c5_filter_by_status_code :
    (∀ (entries : List Entry) (codes : List Int) (e : Entry),
      e ∈ HarAnalyzer.filterByStatusCode entries codes ↔
        e ∈ entries ∧ ∃ c ∈ codes,
          (c = 0 ∧ e.response.status = 0) ∨
          (c ≠ 0 ∧ Int.fdiv e.response.status 100 = Int.fdiv c 100)) ∧
    HarAnalyzer.filterByStatusCode
      [entryWithStatus 200 "a", entryWithStatus 301 "b",
       entryWithStatus 404 "c", entryWithStatus 0 "d"] [200, 400] =
      [entryWithStatus 200 "a", entryWithStatus 404 "c"] ∧
    (∀ entries : List Entry, HarAnalyzer.filterByStatusCode entries [] = []) := by
  refine ⟨?_, by decide, ?_⟩
  · intro entries codes e
    rw [HarAnalyzer.filterByStatusCode, List.mem_filter, List.any_eq_true]
    refine and_congr_right (fun _ => ⟨?_, ?_⟩)
    · rintro ⟨c, hc, hm⟩
      refine ⟨c, hc, ?_⟩
      unfold HarAnalyzer.statusMatches at hm
      by_cases h0 : c = 0
      · simp only [h0, if_true, decide_eq_true_eq] at hm
        exact Or.inl ⟨h0, hm⟩
      · simp only [h0, if_false, decide_eq_true_eq] at hm
        exact Or.inr ⟨h0, hm.symm⟩
    · rintro ⟨c, hc, hm⟩
      refine ⟨c, hc, ?_⟩
      unfold HarAnalyzer.statusMatches
      rcases hm with ⟨h0, hs⟩ | ⟨h0, hs⟩
      · simp [h0, hs]
      · simp [h0, hs.symm]
  · intro entries
    simp [HarAnalyzer.filterByStatusCode]

/-- The prototype tail of a synonym-table lookup never yields an own
    entry. -/
theorem protoLookupTail_ne_own (n v : String) :
    protoLookupTail n ≠ LookupResult.own v := by
  unfold protoLookupTail
  by_cases hp : n ∈ protoKeys
  · rw [if_pos hp]
    intro h
    exact LookupResult.noConfusion h
  · rw [if_neg hp]
    intro h
    exact LookupResult.noConfusion h

/-- The prototype tail yields an inherited member exactly on the
    `Object.prototype` keys. -/
theorem protoLookupTail_inherited (n : String)
    (h : protoLookupTail n = LookupResult.inherited) : n ∈ protoKeys := by
  by_cases hp : n ∈ protoKeys
  · exact hp
  · unfold protoLookupTail at h
    rw [if_neg hp] at h
    exact absurd h (fun hh => LookupResult.noConfusion hh)

/-- Every own entry of the utils synonym table is a canonical level. -/
theorem utilsLevelMap_mem (n v : String)
    (h : ConsoleLogParserUtils.levelMap n = LookupResult.own v) :
    v ∈ sevenLevels := by
  unfold ConsoleLogParserUtils.levelMap at h
  split_ifs at h <;> first
    | (injection h with h; subst h; decide)
    | exact absurd h (protoLookupTail_ne_own n v)

/-- The utils synonym table reaches an inherited member only on the
    `Object.prototype` keys. -/
theorem utilsLevelMap_inherited (n : String)
    (h : ConsoleLogParserUtils.levelMap n = LookupResult.inherited) :
    n ∈ protoKeys := by
  unfold ConsoleLogParserUtils.levelMap at h
  split_ifs at h
  exact protoLookupTail_inherited n h

/-- Every own entry of the part_002 synonym table is a canonical level. -/
theorem p2LevelMap_mem (n v : String)
    (h : ConsoleLogParserP2.levelMap n = LookupResult.own v) :
    v ∈ sevenLevels := by
  unfold ConsoleLogParserP2.levelMap at h
  by_cases e1 : n = "warning"
  · subst e1
    injection (show LookupResult.own "warn" = .own v from h) with hv
    subst hv; decide
  by_cases e2 : n = "err"
  · subst e2
    injection (show LookupResult.own "error" = .own v from h) with hv
    subst hv; decide
  by_cases e3 : n = "fatal"
  · subst e3
    injection (show LookupResult.own "error" = .own v from h) with hv
    subst hv; decide
  by_cases e4 : n = "critical"
  · subst e4
    injection (show LookupResult.own "error" = .own v from h) with hv
    subst hv; decide
  by_cases e5 : n = "panic"
  · subst e5
    injection (show LookupResult.own "error" = .own v from h) with hv
    subst hv; decide
  by_cases e6 : n = "information"
  · subst e6
    injection (show LookupResult.own "info" = .own v from h) with hv
    subst hv; decide
  by_cases e7 : n = "inf"
  · subst e7
    injection (show LookupResult.own "info" = .own v from h) with hv
    subst hv; decide
  by_cases e8 : n = "dbg"
  · subst e8
    injection (show LookupResult.own "debug" = .own v from h) with hv
    subst hv; decide
  by_cases e9 : n = "verbose"
  · subst e9
    injection (show LookupResult.own "verbose" = .own v from h) with hv
    subst hv; decide
  by_cases e10 : n = "trace"
  · subst e10
    injection (show LookupResult.own "trace" = .own v from h) with hv
    subst hv; decide
  by_cases e11 : n = "notice"
  · subst e11
    injection (show LookupResult.own "info" = .own v from h) with hv
    subst hv; decide
  by_cases e12 : n = "emerg"
  · subst e12
    injection (show LookupResult.own "error" = .own v from h) with hv
    subst hv; decide
  by_cases e13 : n = "emergency"
  · subst e13
    injection (show LookupResult.own "error" = .own v from h) with hv
    subst hv; decide
  by_cases e14 : n = "alert"
  · subst e14
    injection (show LookupResult.own "error" = .own v from h) with hv
    subst hv; decide
  by_cases e15 : n = "crit"
  · subst e15
    injection (show LookupResult.own "error" = .own v from h) with hv
    subst hv; decide
  rw [if_neg e1, if_neg e2, if_neg e3, if_neg e4, if_neg e5, if_neg e6,
    if_neg e7, if_neg e8, if_neg e9, if_neg e10, if_neg e11, if_neg e12,
    if_neg e13, if_neg e14, if_neg e15] at h
  exact absurd h (protoLookupTail_ne_own n v)

/-- The part_002 synonym table reaches an inherited member only on the
    `Object.prototype` keys. -/
theorem p2LevelMap_inherited (n : String)
    (h : ConsoleLogParserP2.levelMap n = LookupResult.inherited) :
    n ∈ protoKeys := by
  unfold ConsoleLogParserP2.levelMap at h
  by_cases e1 : n = "warning"
  · subst e1
    exact LookupResult.noConfusion
      (show LookupResult.own "warn" = .inherited from h)
  by_cases e2 : n = "err"
  · subst e2
    exact LookupResult.noConfusion
      (show LookupResult.own "error" = .inherited from h)
  by_cases e3 : n = "fatal"
  · subst e3
    exact LookupResult.noConfusion
      (show LookupResult.own "error" = .inherited from h)
  by_cases e4 : n = "critical"
  · subst e4
    exact LookupResult.noConfusion
      (show LookupResult.own "error" = .inherited from h)
  by_cases e5 : n = "panic"
  · subst e5
    exact LookupResult.noConfusion
      (show LookupResult.own "error" = .inherited from h)
  by_cases e6 : n = "information"
  · subst e6
    exact LookupResult.noConfusion
      (show LookupResult.own "info" = .inherited from h)
  by_cases e7 : n = "inf"
  · subst e7
    exact LookupResult.noConfusion
      (show LookupResult.own "info" = .inherited from h)
  by_cases e8 : n = "dbg"
  · subst e8
    exact LookupResult.noConfusion
      (show LookupResult.own "debug" = .inherited from h)
  by_cases e9 : n = "verbose"
  · subst e9
    exact LookupResult.noConfusion
      (show LookupResult.own "verbose" = .inherited from h)
  by_cases e10 : n = "trace"
  · subst e10
    exact LookupResult.noConfusion
      (show LookupResult.own "trace" = .inherited from h)
  by_cases e11 : n = "notice"
  · subst e11
    exact LookupResult.noConfusion
      (show LookupResult.own "info" = .inherited from h)
  by_cases e12 : n = "emerg"
  · subst e12
    exact LookupResult.noConfusion
      (show LookupResult.own "error" = .inherited from h)
  by_cases e13 : n = "emergency"
  · subst e13
    exact LookupResult.noConfusion
      (show LookupResult.own "error" = .inherited from h)
  by_cases e14 : n = "alert"
  · subst e14
    exact LookupResult.noConfusion
      (show LookupResult.own "error" = .inherited from h)
  by_cases e15 : n = "crit"
  · subst e15
    exact LookupResult.noConfusion
      (show LookupResult.own "error" = .inherited from h)
  rw [if_neg e1, if_neg e2, if_neg e3, if_neg e4, if_neg e5, if_neg e6,
    if_neg e7, if_neg e8, if_neg e9, if_neg e10, if_neg e11, if_neg e12,
    if_neg e13, if_neg e14, if_neg e15] at h
  exact protoLookupTail_inherited n h

/-- C8 counterexample: the claim says the synonym table maps `panic` to
    `error`, but the copy of `normalizeLogLevel` in
    `src/utils/consoleLogParser.ts` has no `panic` row and returns the
    default `log` on that input. -/
theorem c8_panic_counterexample :
    ConsoleLogParserUtils.normalizeLogLevel "panic" = LevelValue.str "log" ∧
    LevelValue.str "log" ≠ LevelValue.str "error" := by
  exact ⟨rfl, by decide⟩

/-- C8 (amended): for every input whose normalized form does not name an
    `Object.prototype` member, both copies of `normalizeLogLevel` return one
    of the seven canonical level strings; a canonical level maps to itself
    after lower-casing (and, for the part_002 copy, trimming); the part_002
    copy maps warning to warn, err/fatal/critical/panic to error, and dbg to
    debug, while the utils copy agrees except that it lacks the panic row
    (panic normalizes to log there); a string whose normalized form is
    neither canonical nor a table key defaults to log; but the synonym
    lookup is an object property read that walks the prototype chain, so a
    normalized form naming an `Object.prototype` member (reachably,
    `constructor` and `__proto__`, the all-lowercase ones) makes both copies
    return the inherited truthy non-level value instead. -/
theorem c8_normalize_level (s t u1 u2 : String)
    (hs1 : jsToLower s ∉ protoKeys)
    (hs2 : jsTrim (jsToLower s) ∉ protoKeys)
    (hcanUtils : jsToLower t ∈ sevenLevels)
    (hcanP2 : jsTrim (jsToLower t) ∈ sevenLevels)
    (hdef1a : jsToLower u1 ∉ sevenLevels)
    (hdef1b : ConsoleLogParserUtils.levelMap (jsToLower u1) = .missing)
    (hdef2a : jsTrim (jsToLower u2) ∉ sevenLevels)
    (hdef2b : ConsoleLogParserP2.levelMap (jsTrim (jsToLower u2)) = .missing) :
    ((∃ v ∈ sevenLevels,
        ConsoleLogParserUtils.normalizeLogLevel s = LevelValue.str v) ∧
     (∃ v ∈ sevenLevels,
        ConsoleLogParserP2.normalizeLogLevel s = LevelValue.str v)) ∧
    ConsoleLogParserUtils.normalizeLogLevel t =
      LevelValue.str (jsToLower t) ∧
    ConsoleLogParserP2.normalizeLogLevel t =
      LevelValue.str (jsTrim (jsToLower t)) ∧
    (ConsoleLogParserP2.normalizeLogLevel "warning" = LevelValue.str "warn" ∧
     ConsoleLogParserP2.normalizeLogLevel "err" = LevelValue.str "error" ∧
     ConsoleLogParserP2.normalizeLogLevel "fatal" = LevelValue.str "error" ∧
     ConsoleLogParserP2.normalizeLogLevel "critical" = LevelValue.str "error" ∧
     ConsoleLogParserP2.normalizeLogLevel "panic" = LevelValue.str "error" ∧
     ConsoleLogParserP2.normalizeLogLevel "dbg" = LevelValue.str "debug") ∧
    (ConsoleLogParserUtils.normalizeLogLevel "warning" = LevelValue.str "warn" ∧
     ConsoleLogParserUtils.normalizeLogLevel "err" = LevelValue.str "error" ∧
     ConsoleLogParserUtils.normalizeLogLevel "fatal" = LevelValue.str "error" ∧
     ConsoleLogParserUtils.normalizeLogLevel "critical" = LevelValue.str "error" ∧
     ConsoleLogParserUtils.normalizeLogLevel "dbg" = LevelValue.str "debug" ∧
     ConsoleLogParserUtils.normalizeLogLevel "panic" = LevelValue.str "log") ∧
    ConsoleLogParserUtils.normalizeLogLevel u1 = LevelValue.str "log" ∧
    ConsoleLogParserP2.normalizeLogLevel u2 = LevelValue.str "log" ∧
    ConsoleLogParserUtils.normalizeLogLevel "constructor" =
      LevelValue.protoMember "constructor" ∧
    ConsoleLogParserP2.normalizeLogLevel "__proto__" =
      LevelValue.protoMember "__proto__" := by
  refine ⟨⟨?_, ?_⟩, ?_, ?_, ⟨rfl, rfl, rfl, rfl, rfl, rfl⟩,
    ⟨rfl, rfl, rfl, rfl, rfl, rfl⟩, ?_, ?_, rfl, rfl⟩
  · by_cases h : jsToLower s ∈ sevenLevels
    · refine ⟨jsToLower s, h, ?_⟩
      simp only [ConsoleLogParserUtils.normalizeLogLevel]
      rw [if_pos h]
    · cases hm : ConsoleLogParserUtils.levelMap (jsToLower s) with
      | own v =>
        refine ⟨v, utilsLevelMap_mem _ v hm, ?_⟩
        simp only [ConsoleLogParserUtils.normalizeLogLevel]
        rw [if_neg h, hm]
      | inherited => exact absurd (utilsLevelMap_inherited _ hm) hs1
      | missing =>
        refine ⟨"log", by decide, ?_⟩
        simp only [ConsoleLogParserUtils.normalizeLogLevel]
        rw [if_neg h, hm]
  · by_cases h : jsTrim (jsToLower s) ∈ sevenLevels
    · refine ⟨jsTrim (jsToLower s), h, ?_⟩
      simp only [ConsoleLogParserP2.normalizeLogLevel]
      rw [if_pos h]
    · cases hm : ConsoleLogParserP2.levelMap (jsTrim (jsToLower s)) with
      | own v =>
        refine ⟨v, p2LevelMap_mem _ v hm, ?_⟩
        simp only [ConsoleLogParserP2.normalizeLogLevel]
        rw [if_neg h, hm]
      | inherited => exact absurd (p2LevelMap_inherited _ hm) hs2
      | missing =>
        refine ⟨"log", by decide, ?_⟩
        simp only [ConsoleLogParserP2.normalizeLogLevel]
        rw [if_neg h, hm]
  · simp only [ConsoleLogParserUtils.normalizeLogLevel]
    rw [if_pos hcanUtils]
  · simp only [ConsoleLogParserP2.normalizeLogLevel]
    rw [if_pos hcanP2]
  · simp only [ConsoleLogParserUtils.normalizeLogLevel]
    rw [if_neg hdef1a, hdef1b]
  · simp only [ConsoleLogParserP2.normalizeLogLevel]
    rw [if_neg hdef2a, hdef2b]

/-- C8 witness: the amended theorem applied at concrete strings for each
    hypothesis. -/
theorem c8_normalize_level_witness :
    ConsoleLogParserUtils.normalizeLogLevel "ERROR" =
      LevelValue.str (jsToLower "ERROR") ∧
    ConsoleLogParserUtils.normalizeLogLevel "mystery" = LevelValue.str "log" ∧
    ConsoleLogParserP2.normalizeLogLevel "mystery" = LevelValue.str "log" := by
  have h := c8_normalize_level "mystery" "ERROR" "mystery" "mystery"
    (by decide) (by decide) (by decide) (by decide) (by decide) (by decide)
    (by decide) (by decide)
  exact ⟨h.2.1, h.2.2.2.2.2.1, h.2.2.2.2.2.2.1⟩

/-- C10 counterexample: the two shipped copies of `normalizeLogLevel`
    disagree on the input `panic` (the utils copy returns `log`, the
    part_002 copy returns `error`), so they do not compute the same
    function. -/
theorem c10_copies_differ_on_panic :
    ConsoleLogParserUtils.normalizeLogLevel "panic" ≠
      ConsoleLogParserP2.normalizeLogLevel "panic" := by
  decide

/-- C10 (amended): the two copies agree on every input whose lower-cased
    form carries no surrounding whitespace and is none of the synonyms that
    only the part_002 table knows (panic, inf, notice, emerg, emergency,
    alert, crit); on those inputs they can differ, as
    `c10_copies_differ_on_panic` shows for `panic`. -/
theorem c10_copies_agree (s : String)
    (h1 : jsTrim (jsToLower s) = jsToLower s)
    (h2 : jsToLower s ∉ extraSynonyms) :
    ConsoleLogParserUtils.normalizeLogLevel s =
      ConsoleLogParserP2.normalizeLogLevel s := by
  have hmap : ∀ n : String, n ∉ sevenLevels → n ∉ extraSynonyms →
      ConsoleLogParserP2.levelMap n = ConsoleLogParserUtils.levelMap n := by
    intro n h7 hx
    unfold ConsoleLogParserP2.levelMap ConsoleLogParserUtils.levelMap
    by_cases e1 : n = "panic"
    · subst e1; exact absurd (by decide) hx
    by_cases e2 : n = "inf"
    · subst e2; exact absurd (by decide) hx
    by_cases e3 : n = "notice"
    · subst e3; exact absurd (by decide) hx
    by_cases e4 : n = "emerg"
    · subst e4; exact absurd (by decide) hx
    by_cases e5 : n = "emergency"
    · subst e5; exact absurd (by decide) hx
    by_cases e6 : n = "alert"
    · subst e6; exact absurd (by decide) hx
    by_cases e7 : n = "crit"
    · subst e7; exact absurd (by decide) hx
    by_cases e8 : n = "verbose"
    · subst e8; exact absurd (by decide) h7
    by_cases e9 : n = "trace"
    · subst e9; exact absurd (by decide) h7
    rw [if_neg e1, if_neg e2, if_neg e3, if_neg e4, if_neg e5, if_neg e6,
      if_neg e7, if_neg e8, if_neg e9]
  simp only [ConsoleLogParserUtils.normalizeLogLevel,
    ConsoleLogParserP2.normalizeLogLevel, h1]
  by_cases h7 : jsToLower s ∈ sevenLevels
  · rw [if_pos h7, if_pos h7]
  · rw [if_neg h7, if_neg h7, hmap _ h7 h2]

/-- C10 witness: the agreement theorem applied at `WARNING`. -/
theorem c10_copies_agree_witness :
    ConsoleLogParserUtils.normalizeLogLevel "WARNING" =
      ConsoleLogParserP2.normalizeLogLevel "WARNING" :=
  c10_copies_agree "WARNING" (by decide) (by decide)

/-- C7 counterexample: a parsed JSON object that has both a `metadata` field
    and an `entries` field, but whose `metadata` value is the falsy `null`,
    is not returned unchanged: the shape test uses truthiness, so the value
    falls through every branch and `parseJSON` throws
    `Unrecognized JSON format` instead. -/
theorem c7_falsy_metadata_counterexample :
    hasField shapedBad "metadata" = true ∧
    hasField shapedBad "entries" = true ∧
    ConsoleLogParserP2.parseJSON ctxSample (Except.ok shapedBad) "f.json" =
      Except.error "Failed to parse JSON: Unrecognized JSON format" ∧
    Except.error "Failed to parse JSON: Unrecognized JSON format" ≠
      Except.ok shapedBad := by
  exact ⟨rfl, rfl, rfl, fun h => Except.noConfusion h⟩

/-- C7 (amended): for every parsed JSON value whose `metadata` and `entries`
    fields are both truthy, `parseJSON` is the identity: it returns the
    parsed value itself, with no re-wrapping and no re-normalization.  (The
    truthiness requirement is forced by `c7_falsy_metadata_counterexample`.) -/
theorem c7_parse_json_passthrough (j : Json) (ctx : ParseCtx)
    (fileName : String)
    (hm : truthy (jsGet j "metadata") = true)
    (he : truthy (jsGet j "entries") = true) :
    ConsoleLogParserP2.parseJSON ctx (Except.ok j) fileName = Except.ok j := by
  have hnull : j.isNull = false := by
    cases j <;> simp_all [jsGet, truthy, Json.isNull]
  simp [ConsoleLogParserP2.parseJSON, hnull, hm, he]

/-- C7 witness: the pass-through theorem applied to a concrete shaped
    object. -/
theorem c7_parse_json_passthrough_witness :
    ConsoleLogParserP2.parseJSON ctxSample (Except.ok shapedGood) "f.json" =
      Except.ok shapedGood :=
  c7_parse_json_passthrough shapedGood ctxSample "f.json" rfl rfl

/-- C9: `filterByTimeRange` never drops an entry whose timestamp does not
    parse to a valid date, and keeps an entry with a parseable timestamp
    exactly when its instant is not before any given parseable start bound
    and not after any given parseable end bound.  The hypothesis
    `dateValue "" = none` records that `new Date("")` is invalid (an empty
    string is also falsy, so the code skips such a bound entirely). -/
theorem c9_filter_time_range (dateValue : String → Option Int)
    (hempty : dateValue "" = none)
    (entries : List ConsoleLogEntry) (start stop : Option String)
    (e : ConsoleLogEntry) :
    (dateValue e.timestamp = none →
      (e ∈ ConsoleLogAnalyzer.filterByTimeRange dateValue entries start stop ↔
        e ∈ entries)) ∧
    (∀ t : Int, dateValue e.timestamp = some t →
      (e ∈ ConsoleLogAnalyzer.filterByTimeRange dateValue entries start stop ↔
        e ∈ entries ∧
          (∀ s b, start = some s → dateValue s = some b → b ≤ t) ∧
          (∀ s b, stop = some s → dateValue s = some b → t ≤ b))) := by
  have hstart : ∀ (t : Int) (o : Option String),
      ((match o with
        | none => false
        | some s => (s != "") && (match dateValue s with
            | some b => decide (t < b)
            | none => false)) = false) ↔
        (∀ s b, o = some s → dateValue s = some b → b ≤ t) := by
    intro t o
    cases o with
    | none =>
      simp only [true_iff]
      intro s b hs
      exact absurd hs (Option.noConfusion)
    | some s =>
      by_cases hs : s = ""
      · subst hs
        simp only [bne_self_eq_false, Bool.false_and, true_iff]
        intro u b hu hb
        cases hu
        rw [hempty] at hb
        exact absurd hb (Option.noConfusion)
      · have hbne : (s != "") = true := by simpa using hs
        dsimp only
        rw [hbne, Bool.true_and]
        cases hd : dateValue s with
        | none =>
          simp only [true_iff]
          intro u b hu hb
          cases hu
          rw [hd] at hb
          exact absurd hb (Option.noConfusion)
        | some b =>
          simp only [decide_eq_false_iff_not, not_lt]
          constructor
          · intro hle u c hu hc
            cases hu
            rw [hd] at hc
            injection hc with hc
            exact hc ▸ hle
          · intro h
            exact h s b rfl hd
  have hstop : ∀ (t : Int) (o : Option String),
      ((match o with
        | none => false
        | some s => (s != "") && (match dateValue s with
            | some b => decide (b < t)
            | none => false)) = false) ↔
        (∀ s b, o = some s → dateValue s = some b → t ≤ b) := by
    intro t o
    cases o with
    | none =>
      simp only [true_iff]
      intro s b hs
      exact absurd hs (Option.noConfusion)
    | some s =>
      by_cases hs : s = ""
      · subst hs
        simp only [bne_self_eq_false, Bool.false_and, true_iff]
        intro u b hu hb
        cases hu
        rw [hempty] at hb
        exact absurd hb (Option.noConfusion)
      · have hbne : (s != "") = true := by simpa using hs
        dsimp only
        rw [hbne, Bool.true_and]
        cases hd : dateValue s with
        | none =>
          simp only [true_iff]
          intro u b hu hb
          cases hu
          rw [hd] at hb
          exact absurd hb (Option.noConfusion)
        | some b =>
          simp only [decide_eq_false_iff_not, not_lt]
          constructor
          · intro hle u c hu hc
            cases hu
            rw [hd] at hc
            injection hc with hc
            exact hc ▸ hle
          · intro h
            exact h s b rfl hd
  constructor
  · intro hnone
    simp only [ConsoleLogAnalyzer.filterByTimeRange, List.mem_filter, hnone,
      and_true]
  · intro t ht
    simp only [ConsoleLogAnalyzer.filterByTimeRange, List.mem_filter, ht]
    refine and_congr_right (fun _ => ?_)
    rw [Bool.and_eq_true, Bool.not_eq_true', Bool.not_eq_true']
    exact and_congr (hstart t start) (hstop t stop)

/-- C9 witness: the theorem applied to a concrete oracle, entry and bounds,
    showing the entry is kept. -/
theorem c9_filter_time_range_witness :
    sampleLogEntry ∈ ConsoleLogAnalyzer.filterByTimeRange sampleDateValue
      [sampleLogEntry] (some "t5") (some "t9") := by
  have h := (c9_filter_time_range sampleDateValue rfl [sampleLogEntry]
    (some "t5") (some "t9") sampleLogEntry).2 5 rfl
  refine h.mpr ⟨List.mem_singleton_self _, ?_, ?_⟩
  · intro s b hs hb
    cases hs
    have hb5 : some (5 : Int) = some b := hb
    injection hb5 with hb5
    omega
  · intro s b hs hb
    cases hs
    have hb9 : some (9 : Int) = some b := hb
    injection hb9 with hb9
    omega

/-- C6: running the plain-text parser on `Error: boom` followed by
    `    at foo (file.js:1:1)` yields exactly one entry with level `error`,
    message `boom` and stack trace `at foo (file.js:1:1)` (for every parser
    environment); and in general, one loop step on a stack-continuation line
    while an entry is pending only accumulates the trimmed line into the
    stack buffer — it emits nothing and starts no new entry. -/
theorem c6_stack_trace_reassembly (ctx : ParseCtx)
    (st : ConsoleLogParserP2.PTState) (line : String) (c : ConsoleLogEntry)
    (hline : ConsoleLogParserP2.isStackTraceLine line = true)
    (hcur : st.current = some c) :
    (ConsoleLogParserP2.parsePlainText ctx
        "Error: boom\n    at foo (file.js:1:1)" "t.log").entries.map
      (fun e => (e.level, e.message, e.stackTrace)) =
      [(LevelValue.str "error", "boom", some "at foo (file.js:1:1)")] ∧
    ConsoleLogParserP2.ptStep ctx st line =
      { st with stackLines := st.stackLines ++ [jsTrim line] } := by
  constructor
  · rfl
  · simp only [ConsoleLogParserP2.ptStep, hline, hcur]
    rfl

/-- C6 witness: the theorem applied to a concrete environment, a concrete
    pending state and a concrete continuation line. -/
theorem c6_stack_trace_reassembly_witness :
    ConsoleLogParserP2.ptStep ctxSample ptStateSample "    at bar (x.js:2:3)" =
      { ptStateSample with
          stackLines := ptStateSample.stackLines ++
            [jsTrim "    at bar (x.js:2:3)"] } :=
  (c6_stack_trace_reassembly ctxSample ptStateSample "    at bar (x.js:2:3)"
    { id := "id0", timestamp := "NOW", level := .str "error",
      message := "boom" }
    (by decide) rfl).2

end HarFileAnalyser
